import Mathlib

/-!
Verification of the traffic-verification engine of chutney
(`lib/chutney/Traffic.py`): the SOCKSv4 command encoder `socks_cmd`, the
outcome tally `TestSuite`, the `Sink` verifier, the `Source` state machine,
and the `TrafficTester` reactor loop.

Python byte strings are modelled as `List Nat` (one `Nat` per byte), Python
ints as `Int` where the code can drive them negative, sockets as explicit
byte queues, and the nondeterminism of the transport (how `send`/`recv`
fragment data, when the proxy replies, when peers close) as explicit
environment inputs to the step functions.
-/

set_option autoImplicit false

namespace Chutney

/-- Bytes of a Python byte string, one `Nat` per byte. -/
abbrev Bytes := List Nat

/-! ### TestSuite (Traffic.py lines 58-86)

Keeps a tab on how many tests are pending, failed, succeeded.  `not_done`
is a Python int and the code decrements it without a lower bound, so it is
modelled as `Int`. -/

structure TestSuite where
  not_done : Int
  successes : Nat
  failures : Nat
deriving DecidableEq, Repr

/-- Initial suite: `not_done = successes = failures = 0`. -/
def TestSuite.init : TestSuite := ⟨0, 0, 0⟩

/-- Translation of `TestSuite.add`. -/
def TestSuite.add (ts : TestSuite) : TestSuite :=
  { ts with not_done := ts.not_done + 1 }

/-- Translation of `TestSuite.success`. -/
def TestSuite.success (ts : TestSuite) : TestSuite :=
  { ts with not_done := ts.not_done - 1, successes := ts.successes + 1 }

/-- Translation of `TestSuite.failure`. -/
def TestSuite.failure (ts : TestSuite) : TestSuite :=
  { ts with not_done := ts.not_done - 1, failures := ts.failures + 1 }

/-- Translation of `TestSuite.failure_count`. -/
def TestSuite.failure_count (ts : TestSuite) : Nat := ts.failures

/-- Translation of `TestSuite.all_done`: `not_done == 0`. -/
def TestSuite.all_done (ts : TestSuite) : Bool := ts.not_done == 0

/-- Value returned by `TrafficTester.run` (line 428):
`self.tests.all_done() and self.tests.failure_count() == 0`. -/
def runReturn (ts : TestSuite) : Bool :=
  ts.all_done && (ts.failure_count == 0)

/-- One bookkeeping operation performed on the `TestSuite` during a run. -/
inductive TallyOp
  | add
  | success
  | failure
deriving DecidableEq, Repr

/-- Apply one bookkeeping operation. -/
def TestSuite.apply (ts : TestSuite) : TallyOp → TestSuite
  | .add => ts.add
  | .success => ts.success
  | .failure => ts.failure

/-- Apply a sequence of bookkeeping operations, oldest first. -/
def TestSuite.applyAll (ts : TestSuite) (ops : List TallyOp) : TestSuite :=
  ops.foldl TestSuite.apply ts

/-- Number of `add` operations (= number of registered tests, since
`TrafficTester.add` calls `tests.add()` exactly for each Source). -/
def countAdds : List TallyOp → Nat
  | [] => 0
  | TallyOp.add :: ops => countAdds ops + 1
  | _ :: ops => countAdds ops

/-! ### socks_cmd (Traffic.py lines 35-55)

`socket.inet_aton` is platform code, not part of this repository.  It is
modelled here on the standard dotted-decimal quad forms ("a.b.c.d" with
decimal components below 256 and no leading zeros); host strings outside
this domain are treated as hostnames, i.e. they take the name-resolution
branch that `socks_cmd` uses when `inet_aton` raises.  Hosts are modelled
as `List Char`. -/

/-- Split a host string at every dot. -/
def splitDots : List Char → List (List Char)
  | [] => [[]]
  | c :: cs =>
    match splitDots cs with
    | [] => [[]]
    | g :: gs => if c = '.' then [] :: g :: gs else (c :: g) :: gs

/-- Numeric value of a decimal digit character. -/
def digitVal (c : Char) : Nat := c.toNat - 48

/-- Parse one dotted-quad component: nonempty, all decimal digits, no
leading zero (so the octal forms accepted by some `inet_aton`
implementations stay out of the modelled domain), value below 256. -/
def parseOctet (cs : List Char) : Option Nat :=
  if cs ≠ [] ∧ cs.all (fun c => c.isDigit) ∧ (cs = ['0'] ∨ cs.head? ≠ some '0') then
    let n := cs.foldl (fun a c => a * 10 + digitVal c) 0
    if n < 256 then some n else none
  else none

/-- Modelled from the platform function `socket.inet_aton`, restricted to
standard dotted-decimal quads; returns the four address bytes. -/
def inet_aton (host : List Char) : Option Bytes :=
  match (splitDots host).map parseOctet with
  | [some a, some b, some c, some d] => some [a, b, c, d]
  | _ => none

/-- Translation of `socks_cmd` (lines 35-55): `struct.pack('!BBH', 4, 1,
port)` followed by the four address bytes and the null user-id byte; for a
non-IPv4 host the sentinel address `0.0.0.1` and the ASCII hostname
terminated by a null byte. -/
def socks_cmd (host : List Char) (port : Nat) : Bytes :=
  match inet_aton host with
  | some addr => [4, 1, port / 256 % 256, port % 256] ++ addr ++ [0]
  | none =>
      [4, 1, port / 256 % 256, port % 256] ++ [0, 0, 0, 1] ++ [0] ++
        (host.map Char.toNat ++ [0])

/-! ### Sink (Traffic.py lines 132-182) -/

/-- Mutable state of a `Sink`: the buffered unverified bytes and the
remaining repetition counter (a Python int, decremented inside the `while`
loop without a guard, hence `Int`). -/
structure SinkState where
  inbuf : Bytes
  repetitions : Int
deriving DecidableEq, Repr

/-- The `while len(self.inbuf) >= len(data)` loop of `Sink.verify`
(lines 161-176), as a structurally recursive function on an explicit
iteration budget.  Returns the final buffer, the final repetition count and
`false` exactly when the comparison on line 163 failed.  The
`0 < data.length` guard makes the iteration budget meaningful: `verify`
reaches the loop only when `len(self.tt.data) != 0` (line 151), and then
every iteration drops at least one byte from the buffer. -/
def verifyLoopF : Nat → Bytes → Bytes → Int → Bytes × Int × Bool
  | 0, _, inbuf, reps => (inbuf, reps, true)
  | fuel + 1, data, inbuf, reps =>
    if 0 < data.length ∧ data.length ≤ inbuf.length then
      if inbuf.take data.length = data then
        verifyLoopF fuel data (inbuf.drop data.length) (reps - 1)
      else (inbuf, reps, false)
    else (inbuf, reps, true)

/-- The loop with its sufficient budget: with nonempty `data` each
iteration shortens the buffer, so `inbuf.length + 1` steps are never
exhausted (`verifyLoopF_adequate` below makes this exact). -/
def verifyLoop (data : Bytes) (inbuf : Bytes) (reps : Int) : Bytes × Int × Bool :=
  verifyLoopF (inbuf.length + 1) data inbuf reps

/-- Translation of `Sink.verify` (lines 149-182).  `inp` is the chunk the
`recv` call on line 154 returned; the caller must respect the request size
`len(data) - len(self.inbuf)`, and an empty `inp` is the zero-byte read
(EOF).  Returns the new sink state and the integer result: `0` success,
`-1` failure, positive for more data needed. -/
def Sink.verify (data : Bytes) (st : SinkState) (inp : Bytes) : SinkState × Int :=
  if st.repetitions = 0 ∨ data.length = 0 then (st, 0)
  else if inp.length = 0 then (st, -1)
  else
    let res := verifyLoop data (st.inbuf ++ inp) st.repetitions
    if res.2.2 = false then (⟨res.1, res.2.1⟩, -1)
    else (⟨res.1, res.2.1⟩, res.2.1 * (data.length : Int) - (res.1.length : Int))

/-- Size argument of the `recv` call in `Sink.verify` (line 154):
`len(data) - len(self.inbuf)`. -/
def recvRequest (data : Bytes) (st : SinkState) : Nat :=
  data.length - st.inbuf.length

/-! ### Source (Traffic.py lines 185-320) -/

/-- The `state` constants of `Source` (lines 189-192); the code has no
constant for the final removed state. -/
inductive ConnState
  | NOT_CONNECTED
  | CONNECTING
  | CONNECTING_THROUGH_PROXY
  | CONNECTED
deriving DecidableEq, Repr

/-- Numeric value of each state constant (0, 1, 2, 5 in the code), used to
express forward progress of the machine. -/
def ConnState.rank : ConnState → Nat
  | .NOT_CONNECTED => 0
  | .CONNECTING => 1
  | .CONNECTING_THROUGH_PROXY => 2
  | .CONNECTED => 5

/-- Mutable state of a `Source`.  The destination is kept so that
`socks_cmd(self.dest)` can be formed on line 278; `proxy` records whether a
proxy address was configured. -/
structure SourceState where
  state : ConnState
  data : Bytes
  outbuf : Bytes
  inbuf : Bytes
  proxy : Bool
  destHost : List Char
  destPort : Nat
  repetitions : Nat
  sent_no_bytes : Nat
deriving DecidableEq, Repr

/-- The field initialisation of `Source.__init__` (lines 194-207) before
`self.connect` runs: state `NOT_CONNECTED` and the two sanity checks
(`len(data) == 0` forces `repetitions = 0`, `repetitions == 0` forces empty
data). -/
def Source.preConnect (host : List Char) (port : Nat) (buf : Bytes)
    (proxy : Bool) (reps : Nat) : SourceState :=
  let reps := if buf.length = 0 then 0 else reps
  let data := if reps = 0 then [] else buf
  { state := ConnState.NOT_CONNECTED, data := data, outbuf := [], inbuf := [],
    proxy := proxy, destHost := host, destPort := port,
    repetitions := reps, sent_no_bytes := 0 }

/-- Translation of `Source.connect` (lines 210-219): records the
destination and moves to `CONNECTING`; the non-blocking connect itself is
environment behaviour. -/
def Source.connect (st : SourceState) : SourceState :=
  { st with state := ConnState.CONNECTING }

/-- A freshly constructed `Source` (`__init__` ends by calling
`self.connect(server)`). -/
def Source.init (host : List Char) (port : Nat) (buf : Bytes)
    (proxy : Bool) (reps : Nat) : SourceState :=
  Source.connect (Source.preConnect host port buf proxy reps)

/-- Translation of `Source.want_to_write` (lines 255-264). -/
def want_to_write (st : SourceState) : Bool :=
  if st.state = ConnState.CONNECTING then true
  else if 0 < st.outbuf.length then true
  else if st.state = ConnState.CONNECTED ∧ 0 < st.repetitions ∧ 0 < st.data.length then
    true
  else false

/-- Result of the `self.s.send(self.outbuf)` call: either the byte count
it returned, or the `errno` of the `socket.error` it raised. -/
inductive SendRes
  | ok (n : Nat)
  | err (e : Nat)
deriving DecidableEq, Repr

/-- Linux `errno.ECONNREFUSED`, the only errno `on_writable` handles. -/
def ECONNREFUSED : Nat := 111

/-- Linux `errno.EPIPE`, an errno `on_writable` does not handle. -/
def EPIPE : Nat := 32

/-- What a step function hands back to the reactor: a return value, or an
exception that propagates out of the step. -/
inductive StepOut
  | ret (n : Int)
  | raiseErr (e : Nat)
deriving DecidableEq, Repr

/-- The state mutations of `Source.on_writable` before the `send` call
(lines 272-289): the `CONNECTING` transition and, when `CONNECTED`, the
refill of `outbuf` from `data`. -/
def preWrite (st : SourceState) : SourceState :=
  let st :=
    if st.state = ConnState.CONNECTING then
      if st.proxy = false then { st with state := ConnState.CONNECTED }
      else { st with state := ConnState.CONNECTING_THROUGH_PROXY,
                     outbuf := socks_cmd st.destHost st.destPort }
    else st
  if st.state = ConnState.CONNECTED ∧ st.outbuf.length < st.data.length ∧
      0 < st.repetitions then
    { st with outbuf := st.outbuf ++ st.data, repetitions := st.repetitions - 1 }
  else st

/-- The `send` call and everything after it in `Source.on_writable`
(lines 290-320).  Returns the new state, the bytes actually written to the
socket, and the step outcome. -/
def doSend (st : SourceState) (sr : SendRes) : SourceState × Bytes × StepOut :=
  match sr with
  | .err e =>
      if e = ECONNREFUSED then (st, [], StepOut.ret (-1))
      else (st, [], StepOut.raiseErr e)
  | .ok n =>
      if 0 < n then
        let sent := st.outbuf.take n
        let st := { st with sent_no_bytes := 0, outbuf := st.outbuf.drop n }
        if st.state = ConnState.CONNECTING_THROUGH_PROXY then (st, sent, StepOut.ret 1)
        else
          (st, sent,
            StepOut.ret ((st.repetitions : Int) * st.data.length + st.outbuf.length))
      else
        let st := { st with sent_no_bytes := st.sent_no_bytes + 1 }
        if 2 ≤ st.sent_no_bytes then (st, [], StepOut.ret (-1))
        else if st.state = ConnState.CONNECTING_THROUGH_PROXY then (st, [], StepOut.ret 1)
        else
          (st, [],
            StepOut.ret ((st.repetitions : Int) * st.data.length + st.outbuf.length))

/-- Translation of `Source.on_writable` (lines 266-320). -/
def onWritable (st : SourceState) (sr : SendRes) : SourceState × Bytes × StepOut :=
  doSend (preWrite st) sr

/-- Translation of `Source.on_readable` (lines 221-253).  `inp` is the
chunk returned by the `recv(8 - len(self.inbuf))` call; the caller must
respect that request size, and an empty `inp` is the zero-byte read (EOF).
Outside `CONNECTING_THROUGH_PROXY` the method performs no read and reports
`want_to_write()` (Python booleans compare as 1 and 0 to the reactor). -/
def onReadable (st : SourceState) (inp : Bytes) : SourceState × Int :=
  if st.state = ConnState.CONNECTING_THROUGH_PROXY then
    if inp.length = 0 then (st, -1)
    else
      let st := { st with inbuf := st.inbuf ++ inp }
      if st.inbuf.length = 8 then
        if st.inbuf.take 2 = [0x00, 0x5a] then
          let st := { st with state := ConnState.CONNECTED, inbuf := [] }
          if want_to_write st then (st, 1) else (st, 0)
        else ({ st with state := ConnState.NOT_CONNECTED }, -1)
      else (st, (8 : Int) - st.inbuf.length)
  else (st, if want_to_write st then 1 else 0)

/-! ### Repeated payload stream and chunked feeding of a Sink -/

/-- The byte stream `data` repeated `n` times, which is what a Source sends
and a Sink expects. -/
def joinRep (n : Nat) (data : Bytes) : Bytes := (List.replicate n data).flatten

/-- Sanity checks of `TrafficTester.__init__` (lines 345-349): empty data
forces zero repetitions, zero repetitions force empty data. -/
def ttSanitize (data : Bytes) (reps : Nat) : Bytes × Nat :=
  let reps := if data.length = 0 then 0 else reps
  let data := if reps = 0 then [] else data
  (data, reps)

/-- Outcome of repeatedly stepping a Sink: the final sink state, the bytes
of the incoming stream it has not read, the result of every executed
`verify` step (newest last) and the `recv` request size of every executed
step. -/
structure FeedOut where
  state : SinkState
  stream : Bytes
  results : List Int
  caps : List Nat
deriving DecidableEq, Repr

/-- Drive a Sink through readable events the way `TrafficTester.run` does:
at each event, `recv` returns some prefix of the pending stream, of size at
least 1 (the socket was readable) and at most the request
`len(data) - len(inbuf)`; when the stream is exhausted the peer has closed
and `recv` returns the empty chunk (EOF).  The size schedule `ks` supplies
the fragmentation the transport chose; a terminal result (`<= 0`) removes
the sink, so feeding stops there. -/
def sinkFeed (data : Bytes) : SinkState → Bytes → List Nat → FeedOut
  | st, stream, [] => ⟨st, stream, [], []⟩
  | st, stream, k :: ks =>
    let cap := recvRequest data st
    let s := min (min (max k 1) cap) stream.length
    let inp := stream.take s
    let res := Sink.verify data st inp
    if 0 < res.2 then
      let fo := sinkFeed data res.1 (stream.drop s) ks
      ⟨fo.state, fo.stream, res.2 :: fo.results, cap :: fo.caps⟩
    else ⟨res.1, stream.drop s, [res.2], [cap]⟩

/-! ### The reactor on one direct (no proxy) test

`TrafficTester.run` (lines 372-428) with one registered Source connecting
to the tester's own Listener, as in `main()` and the verify script.  The
loopback transport is modelled by its readiness semantics: the listener is
readable once the source's connect lands, the sink is readable exactly when
bytes are in flight, the source socket is writable whenever the source
wants to write (kernel buffer pressure shows up as short `send` results,
chosen by the environment), and `select` returns every ready descriptor.
The source's socket is closed only after the loop (`pending_close`), so the
sink never sees EOF during the run.  `connectReady = false` models a
destination that never accepts: nothing ever becomes ready.  Each round's
pair of environment choices fragments the sink's `recv` and the source's
`send`. -/

structure WorldA where
  src : Option SourceState
  sink : Option SinkState
  accepted : Bool
  wire : Bytes
  tally : TestSuite
  timeout : Int
  connectReady : Bool
  ttData : Bytes
  ttReps : Int
deriving DecidableEq, Repr

/-- One TrafficTester with one direct Source added (`tt.add(Source(...))`
increments the tally because the peer is a source; Sinks are added by the
Listener without registering a test, lines 363-366). -/
def initWorldA (data : Bytes) (reps : Nat) (timeout : Int)
    (connectReady : Bool) : WorldA :=
  let s := ttSanitize data reps
  { src := some (Source.init [] 0 data false reps),
    sink := none, accepted := false, wire := [],
    tally := TestSuite.init.add, timeout := timeout,
    connectReady := connectReady, ttData := s.1, ttReps := (s.2 : Int) }

/-- A readable sink descriptor in the `for fd in sets[0]` loop
(lines 384-402): read at most the request size, dispatch on the result
(`0` success, negative failure, positive keep). -/
def sinkReadStepA (k : Nat) (w : WorldA) : WorldA :=
  match w.sink with
  | none => w
  | some sk =>
    let cap := recvRequest w.ttData sk
    let s := min (min (max k 1) cap) w.wire.length
    let inp := w.wire.take s
    let wire := w.wire.drop s
    let res := Sink.verify w.ttData sk inp
    if 0 < res.2 then { w with sink := some res.1, wire := wire }
    else if res.2 = 0 then
      { w with sink := none, wire := wire, tally := w.tally.success }
    else { w with sink := none, wire := wire, tally := w.tally.failure }

/-- A writable source descriptor in the `for fd in sets[1]` loop
(lines 404-414): note that result `0` only removes the peer, with no
success credited.  `n` is the environment's choice of how many bytes
`send` accepts; on the loopback with data queued it accepts at least one
byte. -/
def srcWriteStepA (n : Nat) (w : WorldA) : WorldA :=
  match w.src with
  | none => w
  | some s =>
    let p := preWrite s
    let nn := if p.outbuf.length = 0 then 0 else min (max n 1) p.outbuf.length
    let res := doSend p (SendRes.ok nn)
    let w := { w with wire := w.wire ++ res.2.1 }
    match res.2.2 with
    | StepOut.ret r =>
        if r = 0 then { w with src := none }
        else if r < 0 then { w with src := none, tally := w.tally.failure }
        else { w with src := some res.1 }
    | StepOut.raiseErr _ => w

/-- One iteration of the `while` loop of `run`: readable descriptors first
(listener accept, then the sink; a sink accepted in this pass was not in
`rset`), then writable sources that were in `wset`; if `select` had nothing
ready, decrement the timeout (lines 379-382). -/
def roundA (ch : Nat × Nat) (w : WorldA) : WorldA :=
  let acceptNow := w.connectReady && !w.accepted
  let w1 := if acceptNow then
      { w with accepted := true, sink := some ⟨[], w.ttReps⟩ } else w
  let sinkReady := !acceptNow && w1.sink.isSome && !w1.wire.isEmpty
  let w2 := if sinkReady then sinkReadStepA ch.1 w1 else w1
  let srcReady := w.connectReady &&
      (match w2.src with | some s => want_to_write s | none => false)
  let w3 := if srcReady then srcWriteStepA ch.2 w2 else w2
  if !acceptNow && !sinkReady && !srcReady then
    { w3 with timeout := w3.timeout - 1 }
  else w3

/-- The loop `while not self.tests.all_done() and self.timeout > 0`
(line 373), running for at most `fuel` iterations, with the round-indexed
choice stream `chs`. -/
def runA (fuel : Nat) (chs : Nat → Nat × Nat) (w : WorldA) : WorldA :=
  match fuel with
  | 0 => w
  | Nat.succ f =>
    if w.tally.all_done = true ∨ w.timeout ≤ 0 then w
    else runA f chs (roundA (chs f) w)

/-! ### The reactor on one proxied test

One Source configured with a SOCKS proxy (tor), plus the tester's own
Listener which the proxied circuit connects back to.  The proxy is the
environment: it delivers reply bytes (only after it has received the full
request), may close the SOCKS connection, relays payload bytes written
after `CONNECTED` toward the accepted sink, and may close the exit-side
connection (giving the sink EOF).  A schedule interleaves environment
actions with reactor select passes; a pass lists the readable descriptors
first and then the writable ones, exactly as `run` processes them, and the
loop-exit condition is checked between passes, not inside one.
`srcOutcome` records the source's first terminal step result (ghost data
for stating theorems; it does not influence the dynamics). -/

structure WorldP where
  src : Option SourceState
  sink : Option SinkState
  accepted : Bool
  tally : TestSuite
  timeout : Int
  reply : Bytes
  delivered : Nat
  replyRead : Nat
  replyClosed : Bool
  sent : Bytes
  transit : Bytes
  exitClosed : Bool
  ttData : Bytes
  ttReps : Int
  cmd : Bytes
  srcOutcome : Option Int
deriving DecidableEq, Repr

/-- Reply bytes the proxy has made available and the source has not read. -/
def WorldP.queue (w : WorldP) : Bytes :=
  (w.reply.take w.delivered).drop w.replyRead

/-- Readable-descriptor events of one select pass. -/
inductive REv
  | accept
  | srcRead (k : Nat)
  | sinkRead (k : Nat)
deriving DecidableEq, Repr

/-- Writable-descriptor events of one select pass. -/
inductive WEv
  | srcWrite (n : Nat)
deriving DecidableEq, Repr

/-- Schedule items: environment actions of the proxy, or one reactor
select pass, or an idle pass that decrements the timeout. -/
inductive PItem
  | deliver (k : Nat)
  | closeReply
  | closeExit
  | pass (rs : List REv) (ws : List WEv)
  | tick
deriving DecidableEq, Repr

/-- Process one readable descriptor of a pass. -/
def stepRead (w : WorldP) : REv → WorldP
  | .accept =>
      if w.accepted then w
      else { w with accepted := true, sink := some ⟨[], w.ttReps⟩ }
  | .srcRead k =>
      match w.src with
      | none => w
      | some s =>
        if w.queue.isEmpty && !w.replyClosed then w
        else if s.state = ConnState.CONNECTING_THROUGH_PROXY then
          let cap := 8 - s.inbuf.length
          let chunk := w.queue.take (min (max k 1) cap)
          let w := { w with replyRead := w.replyRead + chunk.length }
          let res := onReadable s chunk
          if 0 < res.2 then { w with src := some res.1 }
          else if res.2 = 0 then
            { w with src := none, tally := w.tally.success, srcOutcome := some 0 }
          else
            { w with src := none, tally := w.tally.failure, srcOutcome := some (-1) }
        else
          let res := onReadable s []
          if 0 < res.2 then { w with src := some res.1 }
          else if res.2 = 0 then
            { w with src := none, tally := w.tally.success, srcOutcome := some 0 }
          else
            { w with src := none, tally := w.tally.failure, srcOutcome := some (-1) }
  | .sinkRead k =>
      match w.sink with
      | none => w
      | some sk =>
        if w.transit.isEmpty && !w.exitClosed then w
        else
          let cap := recvRequest w.ttData sk
          let chunk := w.transit.take (min (max k 1) cap)
          let w := { w with transit := w.transit.drop chunk.length }
          let res := Sink.verify w.ttData sk chunk
          if 0 < res.2 then { w with sink := some res.1 }
          else if res.2 = 0 then { w with sink := none, tally := w.tally.success }
          else { w with sink := none, tally := w.tally.failure }

/-- Process one writable descriptor of a pass.  Bytes written while
`CONNECTED` are relayed by the proxy toward the sink. -/
def stepWrite (w : WorldP) : WEv → WorldP
  | .srcWrite n =>
      match w.src with
      | none => w
      | some s =>
        let p := preWrite s
        let nn := min n p.outbuf.length
        let res := doSend p (SendRes.ok nn)
        let w := { w with sent := w.sent ++ res.2.1,
                          transit := if p.state = ConnState.CONNECTED then
                              w.transit ++ res.2.1 else w.transit }
        match res.2.2 with
        | StepOut.ret r =>
            if r = 0 then { w with src := none, srcOutcome := some 0 }
            else if r < 0 then
              { w with src := none, tally := w.tally.failure, srcOutcome := some (-1) }
            else { w with src := some res.1 }
        | StepOut.raiseErr _ => w

/-- One select pass: `wset` membership was decided before the pass, so the
writable events run only if the source wanted to write at pass start (and
is still present, `peers.get`). -/
def stepPass (w : WorldP) (rs : List REv) (ws : List WEv) : WorldP :=
  let wantAtStart := match w.src with
    | some s => want_to_write s
    | none => false
  let w := rs.foldl stepRead w
  if wantAtStart then ws.foldl stepWrite w else w

/-- Process one schedule item.  Select passes and idle ticks happen only
while the loop guard `not all_done and timeout > 0` holds; a SOCKS reply
can only be delivered once the proxy has received the full command. -/
def stepItem (w : WorldP) : PItem → WorldP
  | .deliver k =>
      if w.cmd.length ≤ w.sent.length then
        { w with delivered := min (w.delivered + k) w.reply.length }
      else w
  | .closeReply => { w with replyClosed := true }
  | .closeExit => { w with exitClosed := true }
  | .pass rs ws =>
      if w.tally.all_done = true ∨ w.timeout ≤ 0 then w
      else stepPass w rs ws
  | .tick =>
      if w.tally.all_done = true ∨ w.timeout ≤ 0 then w
      else { w with timeout := w.timeout - 1 }

/-- Run the reactor over a schedule of items. -/
def runP (w : WorldP) : List PItem → WorldP
  | [] => w
  | it :: rest => runP (stepItem w it) rest

/-- One TrafficTester with one proxied Source added. -/
def initWorldP (host : List Char) (port : Nat) (data : Bytes) (reps : Nat)
    (timeout : Int) (reply : Bytes) : WorldP :=
  let s := ttSanitize data reps
  { src := some (Source.init host port data true reps),
    sink := none, accepted := false,
    tally := TestSuite.init.add, timeout := timeout,
    reply := reply, delivered := 0, replyRead := 0, replyClosed := false,
    sent := [], transit := [], exitClosed := false,
    ttData := s.1, ttReps := (s.2 : Int),
    cmd := socks_cmd host port, srcOutcome := none }

/-- Bytes still expected by a sink that has verified `k` full payload
copies plus a prefix of length `r`. -/
def alignedRem (data : Bytes) (R k r : Nat) : Bytes :=
  data.drop r ++ joinRep (R - (k + 1)) data

/-- Host string "127.0.0.1" of the concrete proxied runs. -/
def cHost : List Char := ['1','2','7','.','0','.','0','.','1']

/-- Concrete proxied world: payload `[1,2,3,4]` once, timeout 3, proxy
reply granting the connection. -/
def c2World : WorldP := initWorldP cHost 5000 [1, 2, 3, 4] 1 3 [0, 0x5a, 0, 0, 0, 0, 0, 0]

/-- A reachable schedule in which the circuit stalls and then collapses:
the source writes the SOCKS command, the handshake succeeds, the sink is
accepted and receives a first correct chunk; then the proxy stops reading
(`send` returns 0 twice, the stall guard) and closes the exit side, so in
one final select pass the sink reads EOF (failure) and the stalled source
also fails. -/
def c2Sched : List PItem :=
  [ PItem.pass [] [WEv.srcWrite 9],
    PItem.deliver 8,
    PItem.pass [REv.srcRead 8] [],
    PItem.pass [REv.accept] [],
    PItem.pass [] [WEv.srcWrite 2],
    PItem.pass [REv.sinkRead 2] [],
    PItem.pass [] [WEv.srcWrite 0],
    PItem.closeExit,
    PItem.pass [REv.sinkRead 1] [WEv.srcWrite 0],
    PItem.tick, PItem.tick, PItem.tick ]

/-! ### Invariant of the direct run (claim C1) -/

/-- Invariant of the source side of a direct nondegenerate run, relative
to `b`, the number of stream bytes already written to the socket: a live
source has consistent bookkeeping and still has work to do (it is removed
in the same step that finishes the work); a removed source has written the
whole stream. -/
def SrcInv (data : Bytes) (R : Nat) (b : Nat) : Option SourceState → Prop
  | none => b = R * data.length
  | some s =>
      s.proxy = false ∧ s.data = data ∧ s.sent_no_bytes = 0 ∧ s.inbuf = [] ∧
      (s.state = ConnState.CONNECTING ∨ s.state = ConnState.CONNECTED) ∧
      (s.state = ConnState.CONNECTING → s.outbuf = [] ∧ s.repetitions = R) ∧
      b + s.outbuf.length + s.repetitions * data.length = R * data.length ∧
      0 < s.outbuf.length + s.repetitions * data.length ∧
      joinRep R data =
        (joinRep R data).take b ++ s.outbuf ++ joinRep s.repetitions data

/-- Reactor invariant on a direct nondegenerate run: `b` bytes written by
the source, of which the sink has verified `k` full copies plus a prefix
of length `r`; the wire holds the span in between; exactly one test is
registered, it has not failed, and it has succeeded exactly when the sink
finished. -/
def InvA (data : Bytes) (R : Nat) (T : Int) (w : WorldA) : Prop :=
  w.connectReady = true ∧ w.ttData = data ∧ w.ttReps = (R : Int) ∧
  w.timeout = T ∧
  ∃ b k r,
    r < data.length ∧ k * data.length + r ≤ b ∧ b ≤ R * data.length ∧
    w.wire = ((joinRep R data).take b).drop (k * data.length + r) ∧
    SrcInv data R b w.src ∧
    (w.accepted = false →
      w.sink = none ∧ b = 0 ∧ k = 0 ∧ r = 0 ∧ w.tally = ⟨1, 0, 0⟩) ∧
    (w.accepted = true →
      ((∃ sk, w.sink = some sk ∧ sk.inbuf = data.take r ∧
          sk.repetitions = (R : Int) - k ∧ k < R ∧ w.tally = ⟨1, 0, 0⟩) ∨
       (w.sink = none ∧ k = R ∧ r = 0 ∧ w.tally = ⟨0, 1, 0⟩)))

/-- Termination measure of the direct run: bytes still to be sent count
twice, bytes in flight once, and the pending accept has a fixed cost that
dominates the creation of the sink. -/
def measureA (data : Bytes) (R : Nat) (w : WorldA) : Nat :=
  (match w.src with
   | some s => 2 * (s.repetitions * data.length + s.outbuf.length) + 1
   | none => 0) +
  w.wire.length +
  (if w.accepted then 0 else R * data.length + 2)

/-- Safety invariant of a proxied run whose 8-byte SOCKS reply is bad:
either its status bytes are not `00 5A`, or it is shorter than 8 bytes.
The source never leaves the handshake (`CONNECTING` or
`CONNECTING_THROUGH_PROXY`), every byte it has written belongs to the
SOCKS command, nothing is ever relayed to the exit side, and the only
outcome its test can ever take is failure. -/
def InvP (host : List Char) (port : Nat) (reply : Bytes) (w : WorldP) : Prop :=
  w.reply = reply ∧ w.cmd = socks_cmd host port ∧
  w.replyRead ≤ w.delivered ∧ w.delivered ≤ reply.length ∧
  w.transit = [] ∧
  (∃ t, w.sent ++ t = w.cmd) ∧
  (w.srcOutcome = none ∨ w.srcOutcome = some (-1)) ∧
  (∀ s, w.src = some s →
    w.srcOutcome = none ∧ s.proxy = true ∧ s.destHost = host ∧
    s.destPort = port ∧
    ((s.state = ConnState.CONNECTING ∧ s.outbuf = [] ∧ s.inbuf = [] ∧
      w.replyRead = 0 ∧ w.sent = []) ∨
     (s.state = ConnState.CONNECTING_THROUGH_PROXY ∧
      s.inbuf = reply.take w.replyRead ∧ s.inbuf.length < 8 ∧
      w.sent ++ s.outbuf = w.cmd)))

/-! ### Helper lemmas about the repeated payload stream -/

theorem joinRep_succ (n : Nat) (data : Bytes) :
    joinRep (n + 1) data = data ++ joinRep n data := by
  simp [joinRep, List.replicate_succ]

theorem joinRep_length (n : Nat) (data : Bytes) :
    (joinRep n data).length = n * data.length := by
  induction n with
  | zero => simp [joinRep]
  | succ m ih => rw [joinRep_succ]; simp [ih, Nat.succ_mul]; omega

theorem joinRep_add (m n : Nat) (data : Bytes) :
    joinRep (m + n) data = joinRep m data ++ joinRep n data := by
  induction m with
  | zero => simp [joinRep]
  | succ p ih =>
      rw [Nat.succ_add, joinRep_succ, joinRep_succ, ih, List.append_assoc]

theorem drop_joinRep (R k : Nat) (data : Bytes) (hk : k ≤ R) :
    (joinRep R data).drop (k * data.length) = joinRep (R - k) data := by
  have h : joinRep R data = joinRep k data ++ joinRep (R - k) data := by
    rw [← joinRep_add]
    congr 1
    omega
  rw [h, ← joinRep_length k data, List.drop_left]

theorem joinRep_drop_aligned (R k r : Nat) (data : Bytes)
    (hk : k < R) (hr : r ≤ data.length) :
    (joinRep R data).drop (k * data.length + r) =
      data.drop r ++ joinRep (R - (k + 1)) data := by
  have h1 : (joinRep R data).drop (k * data.length + r) =
      ((joinRep R data).drop (k * data.length)).drop r := by
    rw [List.drop_drop]
  rw [h1, drop_joinRep R k data (Nat.le_of_lt hk)]
  have h2 : R - k = (R - (k + 1)) + 1 := by omega
  rw [h2, joinRep_succ, List.drop_append_of_le_length hr]

/-! ### Basic lemmas about Sink.verify -/

/-- The iteration budget of `verifyLoop` is irrelevant as long as it
exceeds the buffer length, because each iteration drops at least one
byte: the budget in `verifyLoop` is therefore never exhausted and the
function computes exactly the Python `while` loop. -/
theorem verifyLoopF_adequate (f : Nat) : ∀ (g : Nat) (data inbuf : Bytes) (reps : Int),
    inbuf.length < f → inbuf.length < g →
    verifyLoopF f data inbuf reps = verifyLoopF g data inbuf reps := by
  induction f with
  | zero => intro g data inbuf reps hf _; omega
  | succ f ih =>
      intro g data inbuf reps hf hg
      cases g with
      | zero => omega
      | succ g =>
          simp only [verifyLoopF]
          by_cases hc : 0 < data.length ∧ data.length ≤ inbuf.length
          · rw [if_pos hc, if_pos hc]
            by_cases hm : inbuf.take data.length = data
            · rw [if_pos hm, if_pos hm]
              apply ih
              · simp only [List.length_drop]; omega
              · simp only [List.length_drop]; omega
            · rw [if_neg hm, if_neg hm]
          · rw [if_neg hc, if_neg hc]

/-- The loop does nothing on an empty buffer, for any budget. -/
theorem verifyLoopF_nil (fuel : Nat) (data : Bytes) (reps : Int) :
    verifyLoopF fuel data [] reps = ([], reps, true) := by
  cases fuel with
  | zero => rfl
  | succ f =>
      simp only [verifyLoopF, List.length_nil]
      rw [if_neg (by omega)]

/-- The loop does nothing when the buffer is shorter than one payload. -/
theorem verifyLoop_short (data inbuf : Bytes) (reps : Int)
    (h : inbuf.length < data.length) :
    verifyLoop data inbuf reps = (inbuf, reps, true) := by
  unfold verifyLoop
  simp only [verifyLoopF]
  rw [if_neg (by omega)]

/-- The loop runs exactly once when the buffer holds exactly one matching
payload copy. -/
theorem verifyLoop_exact (data : Bytes) (reps : Int) (hd : 0 < data.length) :
    verifyLoop data data reps = ([], reps - 1, true) := by
  unfold verifyLoop
  simp only [verifyLoopF]
  rw [if_pos ⟨hd, Nat.le_refl _⟩, if_pos (List.take_length data),
    List.drop_length, verifyLoopF_nil]

/-- The shortcut on line 151: with the repetition counter at zero, `verify`
returns success without reading anything. -/
theorem verify_done (data : Bytes) (st : SinkState) (inp : Bytes)
    (h : st.repetitions = 0) : Sink.verify data st inp = (st, 0) := by
  simp [Sink.verify, h]

/-- A zero-byte read (EOF, lines 156-158) is failure whenever verification
is still pending. -/
theorem verify_eof (data : Bytes) (st : SinkState)
    (hd : data.length ≠ 0) (hr : st.repetitions ≠ 0) :
    Sink.verify data st [] = (st, -1) := by
  unfold Sink.verify
  rw [if_neg (by push_neg; exact ⟨hr, hd⟩)]
  simp

/-- One `verify` step from an aligned reachable state: `k` full payload
copies plus a prefix of length `r` already verified, and a chunk of the
correct stream of size `s` within the `recv` request bound arriving.  The
`while` loop runs exactly when the buffer completes a copy. -/
theorem verify_aligned (data : Bytes) (R k r s : Nat) (hd : 0 < data.length)
    (hr : r < data.length) (hk : k < R) (hs1 : 1 ≤ s)
    (hrs : r + s ≤ data.length) :
    Sink.verify data ⟨data.take r, (R : Int) - k⟩ ((data.drop r).take s) =
      if r + s < data.length then
        (⟨data.take (r + s), (R : Int) - k⟩,
          ((R : Int) - k) * data.length - (r + s))
      else (⟨[], (R : Int) - (k + 1)⟩, ((R : Int) - (k + 1)) * data.length) := by
  have hlen : ((data.drop r).take s).length = s := by
    simp only [List.length_take, List.length_drop]
    omega
  have hbuf : data.take r ++ (data.drop r).take s = data.take (r + s) :=
    (List.take_add data r s).symm
  have h1 : ¬(((R : Int) - k) = 0 ∨ data.length = 0) := by
    push_neg
    constructor
    · omega
    · omega
  simp only [Sink.verify]
  rw [if_neg h1, if_neg (by omega : ¬((data.drop r).take s).length = 0)]
  simp only [hbuf]
  by_cases hcase : r + s < data.length
  · have hloop : verifyLoop data (data.take (r + s)) ((R : Int) - k) =
        (data.take (r + s), (R : Int) - k, true) := by
      apply verifyLoop_short
      simp only [List.length_take]
      omega
    rw [hloop]
    have hlen2 : (data.take (r + s)).length = r + s := by
      simp only [List.length_take]; omega
    simp [hcase, hlen2]
  · have hrs2 : r + s = data.length := by omega
    have htake : data.take (r + s) = data := by
      rw [hrs2]
      exact List.take_length data
    have hloop : verifyLoop data (data.take (r + s)) ((R : Int) - k) =
        ([], (R : Int) - k - 1, true) := by
      rw [htake]
      exact verifyLoop_exact data _ hd
    rw [hloop]
    have hcast : (R : Int) - k - 1 = (R : Int) - (k + 1) := by omega
    simp [hcase, hcast]

/-! ### The stream still expected by an aligned sink -/

theorem alignedRem_zero (data : Bytes) (R : Nat) (hR : 0 < R) :
    alignedRem data R 0 0 = joinRep R data := by
  unfold alignedRem
  rw [List.drop_zero]
  have h : R = (R - 1) + 1 := by omega
  rw [h, joinRep_succ]
  simp

theorem alignedRem_length (data : Bytes) (R k r : Nat) (hk : k < R)
    (hr : r ≤ data.length) :
    (alignedRem data R k r).length = (R - k) * data.length - r := by
  unfold alignedRem
  have h : (R - k) * data.length = (R - (k + 1)) * data.length + data.length := by
    have h2 : R - k = (R - (k + 1)) + 1 := by omega
    rw [h2, Nat.succ_mul]
  simp only [List.length_append, List.length_drop, joinRep_length]
  omega

theorem alignedRem_take (data : Bytes) (R k r s : Nat)
    (hs : s ≤ data.length - r) :
    (alignedRem data R k r).take s = (data.drop r).take s := by
  unfold alignedRem
  exact List.take_append_of_le_length (by simp only [List.length_drop]; omega)

theorem alignedRem_drop (data : Bytes) (R k r s : Nat)
    (hs : s ≤ data.length - r) :
    (alignedRem data R k r).drop s = alignedRem data R k (r + s) := by
  unfold alignedRem
  rw [List.drop_append_of_le_length (by simp only [List.length_drop]; omega),
    List.drop_drop]

theorem alignedRem_rollover (data : Bytes) (R k : Nat) (hk : k + 1 < R) :
    alignedRem data R k data.length = alignedRem data R (k + 1) 0 := by
  unfold alignedRem
  rw [List.drop_length, List.drop_zero]
  have h : R - (k + 1) = (R - (k + 2)) + 1 := by omega
  rw [h, joinRep_succ]
  simp

/-- Helper: consing preserves a known last element. -/
theorem getLast_cons_some {α : Type} (a v : α) (xs : List α)
    (h : xs.getLast? = some v) : (a :: xs).getLast? = some v := by
  cases xs with
  | nil => simp at h
  | cons b ys => rw [List.getLast?_cons_cons]; exact h


/-- Unfolding of one `sinkFeed` step whose verify result keeps the sink
registered. -/
theorem sinkFeed_cons_pos (data : Bytes) (st : SinkState) (stream : Bytes)
    (kk : Nat) (ks : List Nat) (s : Nat)
    (hs : min (min (max kk 1) (recvRequest data st)) stream.length = s)
    (st2 : SinkState) (v : Int)
    (hv : Sink.verify data st (stream.take s) = (st2, v))
    (hpos : 0 < v) :
    sinkFeed data st stream (kk :: ks) =
      ⟨(sinkFeed data st2 (stream.drop s) ks).state,
       (sinkFeed data st2 (stream.drop s) ks).stream,
       v :: (sinkFeed data st2 (stream.drop s) ks).results,
       recvRequest data st :: (sinkFeed data st2 (stream.drop s) ks).caps⟩ := by
  simp only [sinkFeed, hs, hv]
  rw [if_pos hpos]

/-- Unfolding of one `sinkFeed` step whose verify result is terminal. -/
theorem sinkFeed_cons_term (data : Bytes) (st : SinkState) (stream : Bytes)
    (kk : Nat) (ks : List Nat) (s : Nat)
    (hs : min (min (max kk 1) (recvRequest data st)) stream.length = s)
    (st2 : SinkState) (v : Int)
    (hv : Sink.verify data st (stream.take s) = (st2, v))
    (hneg : ¬ 0 < v) :
    sinkFeed data st stream (kk :: ks) =
      ⟨st2, stream.drop s, [v], [recvRequest data st]⟩ := by
  simp only [sinkFeed, hs, hv]
  rw [if_neg hneg]

/-- Feeding a sink any strict prefix of its expected stream (`a` bytes
available out of the expected remainder), fragmented arbitrarily by the
transport: no step ever returns success, and once the prefix is drained
the EOF read reports -1. -/
theorem sinkFeed_early (data : Bytes) (hd : 0 < data.length) (R : Nat) :
    ∀ (ks : List Nat) (k r a : Nat), r < data.length → k < R →
      a < (R - k) * data.length - r →
      0 ∉ (sinkFeed data ⟨data.take r, (R : Int) - k⟩
          ((alignedRem data R k r).take a) ks).results ∧
      (a < ks.length →
        (-1) ∈ (sinkFeed data ⟨data.take r, (R : Int) - k⟩
            ((alignedRem data R k r).take a) ks).results) := by
  intro ks
  induction ks with
  | nil =>
      intro k r a _ _ _
      exact ⟨by simp [sinkFeed], by intro h; simp at h⟩
  | cons kk ks ih =>
      intro k r a hr hk ha
      have hLle : data.length ≤ (R - k) * data.length :=
        Nat.le_mul_of_pos_left _ (by omega)
      have hmul : (R - k) * data.length =
          (R - (k + 1)) * data.length + data.length := by
        have h2 : R - k = (R - (k + 1)) + 1 := by omega
        rw [h2, Nat.succ_mul]
      have hcap : recvRequest data ⟨data.take r, (R : Int) - k⟩ =
          data.length - r := by
        simp [recvRequest, List.length_take]
        omega
      by_cases ha0 : a = 0
      · -- stream drained: EOF read fails
        subst ha0
        have hs : min (min (max kk 1) (recvRequest data ⟨data.take r, (R : Int) - k⟩))
            (((alignedRem data R k r).take 0).length) = 0 := by
          simp
        have hv : Sink.verify data ⟨data.take r, (R : Int) - k⟩
            (((alignedRem data R k r).take 0).take 0) =
            (⟨data.take r, (R : Int) - k⟩, -1) := by
          simp only [List.take_zero, List.take_nil]
          exact verify_eof data _ (by omega) (show ((R : Int) - k) ≠ 0 by omega)
        have hEQ := sinkFeed_cons_term data ⟨data.take r, (R : Int) - k⟩
          ((alignedRem data R k r).take 0) kk ks 0 hs _ _ hv (by norm_num)
        rw [hEQ]
        exact ⟨by simp, fun _ => by simp⟩
      · -- at least one byte available
        have hremlen : (alignedRem data R k r).length =
            (R - k) * data.length - r :=
          alignedRem_length data R k r hk (Nat.le_of_lt hr)
        have hstreamlen : ((alignedRem data R k r).take a).length = a := by
          simp only [List.length_take]
          omega
        have hs1 : 1 ≤ min (min (max kk 1) (data.length - r)) a := by
          apply le_min (le_min (by omega) (by omega)) (by omega)
        have hsr : min (min (max kk 1) (data.length - r)) a ≤ data.length - r :=
          le_trans (min_le_left _ _) (min_le_right _ _)
        have hsa : min (min (max kk 1) (data.length - r)) a ≤ a := min_le_right _ _
        have hs : min (min (max kk 1) (recvRequest data ⟨data.take r, (R : Int) - k⟩))
            (((alignedRem data R k r).take a).length) =
            min (min (max kk 1) (data.length - r)) a := by
          rw [hcap, hstreamlen]
        have hinp : ((alignedRem data R k r).take a).take
              (min (min (max kk 1) (data.length - r)) a) =
            (data.drop r).take (min (min (max kk 1) (data.length - r)) a) := by
          rw [List.take_take, min_eq_left hsa,
            alignedRem_take data R k r _ hsr]
        have hstep := verify_aligned data R k r
          (min (min (max kk 1) (data.length - r)) a) hd hr hk hs1 (by omega)
        have hdropstream : ((alignedRem data R k r).take a).drop
              (min (min (max kk 1) (data.length - r)) a) =
            (alignedRem data R k (r + min (min (max kk 1) (data.length - r)) a)).take
              (a - min (min (max kk 1) (data.length - r)) a) := by
          rw [List.drop_take, alignedRem_drop data R k r _ hsr]
        by_cases hfull : r + min (min (max kk 1) (data.length - r)) a < data.length
        · -- stays inside the current payload copy
          rw [if_pos hfull] at hstep
          have hcastval : ((R : Int) - k) * data.length =
              (((R - k) * data.length : Nat) : Int) := by
            have h1 : ((R : Int) - k) = ((R - k : Nat) : Int) := by omega
            rw [h1]
            push_cast
            ring
          have hpos : (0 : Int) < ((R : Int) - k) * data.length -
              (r + min (min (max kk 1) (data.length - r)) a) := by
            rw [hcastval]
            omega
          have hv : Sink.verify data ⟨data.take r, (R : Int) - k⟩
              (((alignedRem data R k r).take a).take
                (min (min (max kk 1) (data.length - r)) a)) =
              (⟨data.take (r + min (min (max kk 1) (data.length - r)) a), (R : Int) - k⟩,
                ((R : Int) - k) * data.length -
                  (r + min (min (max kk 1) (data.length - r)) a)) := by
            rw [hinp]
            exact hstep
          have hEQ := sinkFeed_cons_pos data ⟨data.take r, (R : Int) - k⟩
            ((alignedRem data R k r).take a) kk ks _ hs _ _ hv hpos
          rw [hEQ, hdropstream]
          have ihx := ih k (r + min (min (max kk 1) (data.length - r)) a)
            (a - min (min (max kk 1) (data.length - r)) a) hfull hk (by omega)
          constructor
          · intro hmem
            rcases List.mem_cons.mp hmem with h0 | h0
            · rw [hcastval] at h0; omega
            · exact ihx.1 h0
          · intro hlen
            apply List.mem_cons_of_mem
            apply ihx.2
            simp only [List.length_cons] at hlen
            omega
        · -- completes the current payload copy
          have hrseq : r + min (min (max kk 1) (data.length - r)) a = data.length := by
            omega
          rw [if_neg hfull] at hstep
          have hk2 : k + 1 < R := by
            by_contra hcon
            have hone : R - k = 1 := by omega
            rw [hone, Nat.one_mul] at ha
            omega
          have hcastval : ((R : Int) - (k + 1)) * data.length =
              (((R - (k + 1)) * data.length : Nat) : Int) := by
            have h1 : ((R : Int) - (k + 1)) = ((R - (k + 1) : Nat) : Int) := by omega
            rw [h1]
            push_cast
            ring
          have hpos : (0 : Int) < ((R : Int) - (k + 1)) * data.length := by
            rw [hcastval]
            have h2 : 0 < (R - (k + 1)) * data.length := Nat.mul_pos (by omega) hd
            omega
          have hv : Sink.verify data ⟨data.take r, (R : Int) - k⟩
              (((alignedRem data R k r).take a).take
                (min (min (max kk 1) (data.length - r)) a)) =
              (⟨data.take 0, (R : Int) - (k + 1)⟩,
                ((R : Int) - (k + 1)) * data.length) := by
            rw [hinp]
            exact hstep
          have hEQ := sinkFeed_cons_pos data ⟨data.take r, (R : Int) - k⟩
            ((alignedRem data R k r).take a) kk ks _ hs _ _ hv hpos
          have hroll : (alignedRem data R k
                (r + min (min (max kk 1) (data.length - r)) a)).take
                (a - min (min (max kk 1) (data.length - r)) a) =
              (alignedRem data R (k + 1) 0).take
                (a - min (min (max kk 1) (data.length - r)) a) := by
            rw [hrseq, alignedRem_rollover data R k hk2]
          rw [hEQ, hdropstream, hroll]
          have ihx := ih (k + 1) 0
            (a - min (min (max kk 1) (data.length - r)) a) hd hk2 (by omega)
          constructor
          · intro hmem
            rcases List.mem_cons.mp hmem with h0 | h0
            · rw [hcastval] at h0
              have h2 : 0 < (R - (k + 1)) * data.length := Nat.mul_pos (by omega) hd
              omega
            · exact ihx.1 h0
          · intro hlen
            apply List.mem_cons_of_mem
            apply ihx.2
            simp only [List.length_cons] at hlen
            omega

/-- Feeding a sink its full expected stream followed by any extra bytes:
every `recv` request is between 1 and one payload length (so the buffered
prefix is always strictly shorter than one repetition at entry), the sink
never consumes into the extra bytes, and with enough readable events the
run ends with result 0, the extra bytes unread and the counter at zero. -/
theorem sinkFeed_full (data : Bytes) (hd : 0 < data.length) (R : Nat) :
    ∀ (ks : List Nat) (k r : Nat) (extra : Bytes), r < data.length → k < R →
      (∀ q ∈ (sinkFeed data ⟨data.take r, (R : Int) - k⟩
          (alignedRem data R k r ++ extra) ks).caps, 1 ≤ q ∧ q ≤ data.length) ∧
      (∃ t, (sinkFeed data ⟨data.take r, (R : Int) - k⟩
          (alignedRem data R k r ++ extra) ks).stream = t ++ extra) ∧
      ((alignedRem data R k r).length ≤ ks.length →
        (sinkFeed data ⟨data.take r, (R : Int) - k⟩
            (alignedRem data R k r ++ extra) ks).results.getLast? = some 0 ∧
        (sinkFeed data ⟨data.take r, (R : Int) - k⟩
            (alignedRem data R k r ++ extra) ks).stream = extra ∧
        (sinkFeed data ⟨data.take r, (R : Int) - k⟩
            (alignedRem data R k r ++ extra) ks).state = ⟨[], 0⟩) := by
  intro ks
  induction ks with
  | nil =>
      intro k r extra hr hk
      have hremlen : (alignedRem data R k r).length =
          (R - k) * data.length - r :=
        alignedRem_length data R k r hk (Nat.le_of_lt hr)
      have hLle : data.length ≤ (R - k) * data.length :=
        Nat.le_mul_of_pos_left _ (by omega)
      refine ⟨by simp [sinkFeed], ⟨alignedRem data R k r, by simp [sinkFeed]⟩, ?_⟩
      intro hlen
      simp only [List.length_nil] at hlen
      omega
  | cons kk ks ih =>
      intro k r extra hr hk
      have hLle : data.length ≤ (R - k) * data.length :=
        Nat.le_mul_of_pos_left _ (by omega)
      have hmul : (R - k) * data.length =
          (R - (k + 1)) * data.length + data.length := by
        have h2 : R - k = (R - (k + 1)) + 1 := by omega
        rw [h2, Nat.succ_mul]
      have hremlen : (alignedRem data R k r).length =
          (R - k) * data.length - r :=
        alignedRem_length data R k r hk (Nat.le_of_lt hr)
      have hcap : recvRequest data ⟨data.take r, (R : Int) - k⟩ =
          data.length - r := by
        simp [recvRequest, List.length_take]
        omega
      have hstreamlen : (alignedRem data R k r ++ extra).length =
          (alignedRem data R k r).length + extra.length := by
        simp
      have hs1 : 1 ≤ min (min (max kk 1) (data.length - r))
          (alignedRem data R k r ++ extra).length := by
        apply le_min (le_min (by omega) (by omega))
        rw [hstreamlen]
        omega
      have hsr : min (min (max kk 1) (data.length - r))
            (alignedRem data R k r ++ extra).length ≤ data.length - r :=
        le_trans (min_le_left _ _) (min_le_right _ _)
      have hsrem : min (min (max kk 1) (data.length - r))
            (alignedRem data R k r ++ extra).length ≤
          (alignedRem data R k r).length := by
        rw [hremlen]
        omega
      have hs : min (min (max kk 1) (recvRequest data ⟨data.take r, (R : Int) - k⟩))
          ((alignedRem data R k r ++ extra).length) =
          min (min (max kk 1) (data.length - r))
            (alignedRem data R k r ++ extra).length := by
        rw [hcap]
      have hinp : (alignedRem data R k r ++ extra).take
            (min (min (max kk 1) (data.length - r))
              (alignedRem data R k r ++ extra).length) =
          (data.drop r).take (min (min (max kk 1) (data.length - r))
              (alignedRem data R k r ++ extra).length) := by
        rw [List.take_append_of_le_length hsrem,
          alignedRem_take data R k r _ hsr]
      have hstep := verify_aligned data R k r
        (min (min (max kk 1) (data.length - r))
          (alignedRem data R k r ++ extra).length) hd hr hk hs1 (by omega)
      have hdropstream : (alignedRem data R k r ++ extra).drop
            (min (min (max kk 1) (data.length - r))
              (alignedRem data R k r ++ extra).length) =
          alignedRem data R k (r + min (min (max kk 1) (data.length - r))
              (alignedRem data R k r ++ extra).length) ++ extra := by
        rw [List.drop_append_of_le_length hsrem,
          alignedRem_drop data R k r _ hsr]
      by_cases hfull : r + min (min (max kk 1) (data.length - r))
          (alignedRem data R k r ++ extra).length < data.length
      · -- stays inside the current payload copy
        rw [if_pos hfull] at hstep
        have hcastval : ((R : Int) - k) * data.length =
            (((R - k) * data.length : Nat) : Int) := by
          have h1 : ((R : Int) - k) = ((R - k : Nat) : Int) := by omega
          rw [h1]
          push_cast
          ring
        have hpos : (0 : Int) < ((R : Int) - k) * data.length -
            (r + min (min (max kk 1) (data.length - r))
              (alignedRem data R k r ++ extra).length) := by
          rw [hcastval]
          omega
        have hv : Sink.verify data ⟨data.take r, (R : Int) - k⟩
            ((alignedRem data R k r ++ extra).take
              (min (min (max kk 1) (data.length - r))
                (alignedRem data R k r ++ extra).length)) =
            (⟨data.take (r + min (min (max kk 1) (data.length - r))
                (alignedRem data R k r ++ extra).length), (R : Int) - k⟩,
              ((R : Int) - k) * data.length -
                (r + min (min (max kk 1) (data.length - r))
                  (alignedRem data R k r ++ extra).length)) := by
          rw [hinp]
          exact hstep
        have hEQ := sinkFeed_cons_pos data ⟨data.take r, (R : Int) - k⟩
          (alignedRem data R k r ++ extra) kk ks _ hs _ _ hv hpos
        rw [hEQ, hdropstream]
        have ihx := ih k (r + min (min (max kk 1) (data.length - r))
            (alignedRem data R k r ++ extra).length) extra hfull hk
        have hremlen2 : (alignedRem data R k
            (r + min (min (max kk 1) (data.length - r))
              (alignedRem data R k r ++ extra).length)).length =
            (R - k) * data.length -
              (r + min (min (max kk 1) (data.length - r))
                (alignedRem data R k r ++ extra).length) :=
          alignedRem_length data R k _ hk (by omega)
        refine ⟨?_, ihx.2.1, ?_⟩
        · intro q hq
          rcases List.mem_cons.mp hq with h0 | h0
          · constructor <;> omega
          · exact ihx.1 q h0
        · intro hlen
          simp only [List.length_cons] at hlen
          have hrec := ihx.2.2 (by rw [hremlen2]; rw [hremlen] at hlen; omega)
          exact ⟨getLast_cons_some _ _ _ hrec.1, hrec.2.1, hrec.2.2⟩
      · -- completes the current payload copy
        have hrseq : r + min (min (max kk 1) (data.length - r))
            (alignedRem data R k r ++ extra).length = data.length := by
          omega
        rw [if_neg hfull] at hstep
        by_cases hk2 : k + 1 < R
        · -- more copies still expected
          have hcastval : ((R : Int) - (k + 1)) * data.length =
              (((R - (k + 1)) * data.length : Nat) : Int) := by
            have h1 : ((R : Int) - (k + 1)) = ((R - (k + 1) : Nat) : Int) := by
              omega
            rw [h1]
            push_cast
            ring
          have hpos : (0 : Int) < ((R : Int) - (k + 1)) * data.length := by
            rw [hcastval]
            have h2 : 0 < (R - (k + 1)) * data.length := Nat.mul_pos (by omega) hd
            omega
          have hv : Sink.verify data ⟨data.take r, (R : Int) - k⟩
              ((alignedRem data R k r ++ extra).take
                (min (min (max kk 1) (data.length - r))
                  (alignedRem data R k r ++ extra).length)) =
              (⟨data.take 0, (R : Int) - (k + 1)⟩,
                ((R : Int) - (k + 1)) * data.length) := by
            rw [hinp]
            exact hstep
          have hEQ := sinkFeed_cons_pos data ⟨data.take r, (R : Int) - k⟩
            (alignedRem data R k r ++ extra) kk ks _ hs _ _ hv hpos
          have hroll : alignedRem data R k
              (r + min (min (max kk 1) (data.length - r))
                (alignedRem data R k r ++ extra).length) =
              alignedRem data R (k + 1) 0 := by
            rw [hrseq]
            exact alignedRem_rollover data R k hk2
          rw [hEQ, hdropstream, hroll]
          have ihx := ih (k + 1) 0 extra hd hk2
          have hremlen2 : (alignedRem data R (k + 1) 0).length =
              (R - (k + 1)) * data.length - 0 :=
            alignedRem_length data R (k + 1) 0 hk2 (by omega)
          refine ⟨?_, ihx.2.1, ?_⟩
          · intro q hq
            rcases List.mem_cons.mp hq with h0 | h0
            · constructor <;> omega
            · exact ihx.1 q h0
          · intro hlen
            simp only [List.length_cons] at hlen
            have hrec := ihx.2.2 (by rw [hremlen2]; rw [hremlen] at hlen; omega)
            exact ⟨getLast_cons_some _ _ _ hrec.1, hrec.2.1, hrec.2.2⟩
        · -- this was the last copy: terminal success
          have hkR : k + 1 = R := by omega
          have hzero : ((R : Int) - (k + 1)) = 0 := by omega
          have hv : Sink.verify data ⟨data.take r, (R : Int) - k⟩
              ((alignedRem data R k r ++ extra).take
                (min (min (max kk 1) (data.length - r))
                  (alignedRem data R k r ++ extra).length)) =
              (⟨[], 0⟩, 0) := by
            rw [hinp]
            rw [hstep, hzero]
            norm_num
          have hEQ := sinkFeed_cons_term data ⟨data.take r, (R : Int) - k⟩
            (alignedRem data R k r ++ extra) kk ks _ hs _ _ hv (by norm_num)
          have hrem0 : alignedRem data R k
              (r + min (min (max kk 1) (data.length - r))
                (alignedRem data R k r ++ extra).length) = [] := by
            rw [hrseq]
            unfold alignedRem
            rw [List.drop_length]
            have : R - (k + 1) = 0 := by omega
            rw [this]
            simp [joinRep]
          rw [hEQ, hdropstream, hrem0]
          refine ⟨?_, ⟨[], by simp⟩, ?_⟩
          · intro q hq
            rcases List.mem_cons.mp hq with h0 | h0
            · constructor <;> omega
            · simp at h0
          · intro _
            exact ⟨by simp, by simp, rfl⟩

/-! ### Claim C4: the SOCKS request wire format -/

/-- C4: for a destination whose host is a literal IPv4 address, the first
bytes a Source writes after its proxy TCP connection completes are exactly
version 4, command 1, the port big-endian, the 4 address bytes and a null
byte — concretely `04 01 00 50 0A 00 00 05 00` for ("10.0.0.5", 80) — and
for a non-IPv4 host the sentinel address 0.0.0.1 followed by the ASCII
hostname and a terminating null; the last conjunct shows the bytes a fresh
proxied Source sends on its first writable event are exactly a prefix of
this command. -/
theorem c4_proxy_wire_format :
    (∀ (host : List Char) (port a b c d : Nat), port < 65536 →
        inet_aton host = some [a, b, c, d] →
        socks_cmd host port = [4, 1, port / 256, port % 256, a, b, c, d, 0]) ∧
    (∀ (host : List Char) (port : Nat), port < 65536 →
        inet_aton host = none →
        socks_cmd host port =
          [4, 1, port / 256, port % 256, 0, 0, 0, 1, 0] ++
            host.map Char.toNat ++ [0]) ∧
    socks_cmd ['1','0','.','0','.','0','.','5'] 80 = [4, 1, 0, 80, 10, 0, 0, 5, 0] ∧
    (∀ (host : List Char) (port : Nat) (buf : Bytes) (reps n : Nat),
        (onWritable (Source.init host port buf true reps) (SendRes.ok n)).2.1 =
          (socks_cmd host port).take n) := by
  have hdiv : ∀ port : Nat, port < 65536 → port / 256 % 256 = port / 256 := by
    intro port hp
    exact Nat.mod_eq_of_lt (by omega)
  refine ⟨?_, ?_, ?_, ?_⟩
  · intro host port a b c d hp h
    unfold socks_cmd
    rw [h, hdiv port hp]
    simp
  · intro host port hp h
    unfold socks_cmd
    rw [h, hdiv port hp]
    simp
  · decide
  · intro host port buf reps n
    show (doSend (preWrite (Source.init host port buf true reps)) (SendRes.ok n)).2.1 = _
    have hpre : preWrite (Source.init host port buf true reps) =
        { Source.init host port buf true reps with
            state := ConnState.CONNECTING_THROUGH_PROXY,
            outbuf := socks_cmd host port } := by
      unfold preWrite Source.init Source.connect Source.preConnect
      simp
    rw [hpre]
    unfold doSend
    by_cases hn : 0 < n
    · simp [hn]
    · simp [hn, Source.init, Source.connect, Source.preConnect, show n = 0 by omega]

/-- Witness for C4: the theorem applied to the literal destination
("10.0.0.5", 80) and to a host with no IPv4 form. -/
theorem c4_proxy_wire_format_witness :
    socks_cmd ['1','0','.','0','.','0','.','5'] 80 =
      [4, 1, 80 / 256, 80 % 256, 10, 0, 0, 5, 0] ∧
    socks_cmd ['f','o','o'] 80 =
      [4, 1, 80 / 256, 80 % 256, 0, 0, 0, 1, 0] ++
        (['f','o','o'].map Char.toNat) ++ [0] :=
  ⟨c4_proxy_wire_format.1 ['1','0','.','0','.','0','.','5'] 80 10 0 0 5
      (by decide) (by decide),
    c4_proxy_wire_format.2.1 ['f','o','o'] 80 (by decide) (by decide)⟩

/-! ### Claim C6: what happens to data arriving after success -/

/-- C6 counterexample: the claim says excess bytes delivered after the
expected stream is exhausted force the terminal state `failed`.  In the
code the opposite happens: a sink that has reached terminal success
(`repetitions = 0`, reached here by the exact stream `[1]`) answers any
later delivery with `0` (success) through the shortcut on line 151, and
never with `-1`. -/
theorem c6_counterexample :
    Sink.verify [1] ⟨[], 1⟩ [1] = (⟨[], 0⟩, 0) ∧
    (Sink.verify [1] ⟨[], 0⟩ [9]).2 = 0 ∧
    ¬(Sink.verify [1] ⟨[], 0⟩ [9]).2 = -1 := by decide

/-- C6 (amended): once the expected stream is exhausted (the repetition
counter is 0), any later `verify` call returns success immediately and
consumes no input; excess bytes never force `failed` (and in the reactor
the sink is removed at success, so no later step occurs at all). -/
theorem c6_after_success :
    ∀ (data : Bytes) (st : SinkState) (inp : Bytes),
      st.repetitions = 0 → Sink.verify data st inp = (st, 0) := by
  intro data st inp h
  exact verify_done data st inp h

/-- Witness for C6 (amended) at a concrete exhausted sink. -/
theorem c6_after_success_witness :
    Sink.verify [1, 2] ⟨[], 0⟩ [7, 7] = (⟨[], 0⟩, 0) :=
  c6_after_success [1, 2] ⟨[], 0⟩ [7, 7] rfl

/-! ### Claim C9: error propagation out of the step functions -/

/-- C9 counterexample: the claim says no write step ever propagates an
exception to the reactor.  But `on_writable` re-raises every socket error
other than `ECONNREFUSED` (line 296): a `send` failing with `EPIPE` on a
connected source escapes the step. -/
theorem c9_counterexample :
    (onWritable ⟨ConnState.CONNECTED, [1], [1], [], true, [], 0, 1, 0⟩
        (SendRes.err EPIPE)).2.2 = StepOut.raiseErr EPIPE := by decide

/-- C9 (amended): a `send` error is handled locally exactly when it is
`ECONNREFUSED` (reported as the failure result -1); any other socket error
raised by `send` propagates out of the write step; when `send` returns
normally the step always hands the reactor a plain integer result. -/
theorem c9_error_propagation : ∀ (st : SourceState) (e n : Nat),
    (onWritable st (SendRes.err ECONNREFUSED)).2.2 = StepOut.ret (-1) ∧
    (e ≠ ECONNREFUSED → (onWritable st (SendRes.err e)).2.2 = StepOut.raiseErr e) ∧
    (∃ m : Int, (onWritable st (SendRes.ok n)).2.2 = StepOut.ret m) := by
  intro st e n
  refine ⟨?_, ?_, ?_⟩
  · simp [onWritable, doSend]
  · intro he
    simp [onWritable, doSend, he]
  · unfold onWritable doSend
    by_cases hn : 0 < n
    · simp only [if_pos hn]
      split
      · exact ⟨1, rfl⟩
      · exact ⟨_, rfl⟩
    · simp only [if_neg hn]
      split
      · exact ⟨-1, rfl⟩
      · split
        · exact ⟨1, rfl⟩
        · exact ⟨_, rfl⟩

/-- Witness for C9 (amended) at a concrete connected source and the
unhandled errno `EPIPE`. -/
theorem c9_error_propagation_witness :
    (onWritable ⟨ConnState.CONNECTED, [1], [1], [], true, [], 0, 1, 0⟩
        (SendRes.err EPIPE)).2.2 = StepOut.raiseErr EPIPE :=
  (c9_error_propagation ⟨ConnState.CONNECTED, [1], [1], [], true, [], 0, 1, 0⟩
      EPIPE 1).2.1 (by decide)

/-! ### Claim C2: the outcome tally accounting -/

/-- Folding any operation sequence over a suite shifts the signed sum
`not_done + successes + failures` by exactly the number of `add`
operations: this is the conservation law behind the tally. -/
theorem applyAll_counts (ops : List TallyOp) : ∀ ts : TestSuite,
    (ts.applyAll ops).not_done + ((ts.applyAll ops).successes : Int) +
        ((ts.applyAll ops).failures : Int) =
      ts.not_done + (ts.successes : Int) + (ts.failures : Int) +
        (countAdds ops : Int) := by
  induction ops with
  | nil => intro ts; simp [TestSuite.applyAll, countAdds]
  | cons op ops ih =>
      intro ts
      have h : ts.applyAll (op :: ops) = (ts.apply op).applyAll ops := rfl
      rw [h, ih]
      cases op <;>
        simp [TestSuite.apply, TestSuite.add, TestSuite.success,
          TestSuite.failure, countAdds] <;>
        omega

/-- C2 (amended): for every sequence of tally operations a run can perform,
`pending + succeeded + failed = total_registered` holds as integer
arithmetic at every point, and `run()` returns exactly
`pending == 0 && failed == 0`.  (The per-test at-most-one-transition part
of the original claim fails: see the counterexample.) -/
theorem c2_tally_accounting :
    (∀ ops : List TallyOp,
        (TestSuite.init.applyAll ops).not_done +
            ((TestSuite.init.applyAll ops).successes : Int) +
            ((TestSuite.init.applyAll ops).failures : Int) =
          (countAdds ops : Int)) ∧
    (∀ ts : TestSuite, runReturn ts = true ↔ ts.not_done = 0 ∧ ts.failures = 0) := by
  constructor
  · intro ops
    rw [applyAll_counts ops TestSuite.init]
    simp [TestSuite.init]
  · intro ts
    simp [runReturn, TestSuite.all_done, TestSuite.failure_count,
      Bool.and_eq_true, beq_iff_eq]

/-- Witness for C2 (amended) at a concrete operation sequence and suite. -/
theorem c2_tally_accounting_witness :
    ((TestSuite.init.applyAll [TallyOp.add, TallyOp.success]).not_done +
        ((TestSuite.init.applyAll [TallyOp.add, TallyOp.success]).successes : Int) +
        ((TestSuite.init.applyAll [TallyOp.add, TallyOp.success]).failures : Int) =
      (countAdds [TallyOp.add, TallyOp.success] : Int)) ∧
    (runReturn ⟨0, 1, 0⟩ = true ↔ (⟨0, 1, 0⟩ : TestSuite).not_done = 0 ∧
      (⟨0, 1, 0⟩ : TestSuite).failures = 0) :=
  ⟨c2_tally_accounting.1 [TallyOp.add, TallyOp.success],
    c2_tally_accounting.2 ⟨0, 1, 0⟩⟩

/-! ### Claim C7: timeout leaves tests pending -/

/-- With a destination that never accepts, every select round is empty and
only decrements the timeout (lines 379-382). -/
theorem roundA_neverReady (ch : Nat × Nat) (w : WorldA)
    (hcr : w.connectReady = false) (hsk : w.sink = none) :
    roundA ch w = { w with timeout := w.timeout - 1 } := by
  simp [roundA, hcr, hsk]

/-- Running against a never-accepting destination changes no tally entry,
and once the budget is exhausted the loop has stopped with
`timeout <= 0`. -/
theorem runA_neverReady (chs : Nat → Nat × Nat) : ∀ (fuel : Nat) (w : WorldA),
    w.connectReady = false → w.sink = none →
    (runA fuel chs w).tally = w.tally ∧
    (¬ w.tally.all_done = true → Int.toNat w.timeout ≤ fuel →
      (runA fuel chs w).timeout ≤ 0) := by
  intro fuel
  induction fuel with
  | zero =>
      intro w hcr hsk
      exact ⟨rfl, fun _ hf => by simp [runA]; omega⟩
  | succ f ih =>
      intro w hcr hsk
      by_cases hstop : w.tally.all_done = true ∨ w.timeout ≤ 0
      · constructor
        · simp [runA, hstop]
        · intro hnd hf
          simp only [runA, if_pos hstop]
          rcases hstop with h | h
          · exact absurd h hnd
          · exact h
      · have hstep : runA (f + 1) chs w = runA f chs (roundA (chs f) w) := by
          simp [runA, hstop]
        rw [hstep, roundA_neverReady (chs f) w hcr hsk]
        have ihx := ih { w with timeout := w.timeout - 1 } hcr hsk
        constructor
        · exact ihx.1
        · intro hnd hf
          apply ihx.2 hnd
          push_neg at hstop
          have hproj : ({ w with timeout := w.timeout - 1 } : WorldA).timeout =
              w.timeout - 1 := rfl
          rw [hproj]
          omega

/-- C7: when the run budget is exhausted while the registered test is
still pending — one Source against a destination that never accepts —
`run()` returns false and the Outcome Tally still shows the test as
pending (1 pending, 0 succeeded, 0 failed): it is not classified as
failed. -/
theorem c7_timeout_leaves_pending (data : Bytes) (reps : Nat) (T : Int)
    (fuel : Nat) (chs : Nat → Nat × Nat) (hfuel : T.toNat ≤ fuel) :
    (runA fuel chs (initWorldA data reps T false)).tally = ⟨1, 0, 0⟩ ∧
    runReturn (runA fuel chs (initWorldA data reps T false)).tally = false ∧
    (runA fuel chs (initWorldA data reps T false)).timeout ≤ 0 := by
  have h := runA_neverReady chs fuel (initWorldA data reps T false) rfl rfl
  have htally : (initWorldA data reps T false).tally = ⟨1, 0, 0⟩ := rfl
  have hnd : ¬ (initWorldA data reps T false).tally.all_done = true := by
    rw [htally]
    decide
  refine ⟨by rw [h.1, htally], ?_, h.2 hnd (by simpa using hfuel)⟩
  rw [h.1, htally]
  decide

/-- Witness for C7: payload `[1,2]`, one repetition, run timeout 1. -/
theorem c7_timeout_leaves_pending_witness :
    (runA 3 (fun _ => (1, 1)) (initWorldA [1, 2] 1 1 false)).tally = ⟨1, 0, 0⟩ ∧
    runReturn (runA 3 (fun _ => (1, 1)) (initWorldA [1, 2] 1 1 false)).tally =
      false ∧
    (runA 3 (fun _ => (1, 1)) (initWorldA [1, 2] 1 1 false)).timeout ≤ 0 :=
  c7_timeout_leaves_pending [1, 2] 1 1 3 (fun _ => (1, 1)) (by decide)

/-! ### Claim C5: early close is always failure -/

/-- C5: a Sink whose peer closes (zero-byte read) before verification
completed resolves failed and never succeeded, even when every byte
received up to the close (`c` bytes, a byte-exact strict prefix of the
expected stream, chunked arbitrarily by the transport) matched: no verify
step returns 0, and as soon as the drained stream yields the EOF read some
step returns -1, which `TrafficTester.run` books as a failure. -/
theorem c5_early_close_failure (data : Bytes) (R c : Nat) (ks : List Nat)
    (hd : data ≠ []) (hc : c < R * data.length) :
    0 ∉ (sinkFeed data ⟨[], (R : Int)⟩ ((joinRep R data).take c) ks).results ∧
    (c < ks.length →
      (-1) ∈ (sinkFeed data ⟨[], (R : Int)⟩ ((joinRep R data).take c) ks).results) := by
  have hd0 : 0 < data.length := List.length_pos.mpr hd
  have hR : 0 < R := by
    by_contra h
    have hz : R = 0 := by omega
    subst hz
    simp at hc
  have h := sinkFeed_early data hd0 R ks 0 0 c hd0 hR (by simpa using hc)
  simpa [alignedRem_zero data R hR] using h

/-- Witness for C5: three of the four expected bytes arrive and then the
peer closes. -/
theorem c5_early_close_failure_witness :
    0 ∉ (sinkFeed [1, 2] ⟨[], (2 : Int)⟩ ((joinRep 2 [1, 2]).take 3)
        [5, 5, 5, 5]).results ∧
    (3 < [5, 5, 5, 5].length →
      (-1) ∈ (sinkFeed [1, 2] ⟨[], (2 : Int)⟩ ((joinRep 2 [1, 2]).take 3)
          [5, 5, 5, 5]).results) :=
  c5_early_close_failure [1, 2] 2 3 [5, 5, 5, 5] (by decide) (by decide)

/-! ### Claim C10: the sink's read requests are bounded -/

/-- C10: on every read step the Sink requests exactly
`len(data) - len(inbuf)` bytes, a quantity between 1 and `len(data)` (so
the buffered unverified prefix is strictly shorter than one repetition at
entry and never longer than one after a read); the sink never consumes any
byte beyond the expected `R * len(data)` even when the peer pipelines
extra bytes, and the step that brings the counter to 0 with an empty
buffer reports success (0) immediately. -/
theorem c10_sink_read_bounds (data : Bytes) (R : Nat) (extra : Bytes)
    (ks : List Nat) (hd : data ≠ []) (hR : 0 < R) :
    (∀ q ∈ (sinkFeed data ⟨[], (R : Int)⟩ (joinRep R data ++ extra) ks).caps,
        1 ≤ q ∧ q ≤ data.length) ∧
    (∃ t, (sinkFeed data ⟨[], (R : Int)⟩ (joinRep R data ++ extra) ks).stream =
        t ++ extra) ∧
    (R * data.length ≤ ks.length →
      (sinkFeed data ⟨[], (R : Int)⟩
          (joinRep R data ++ extra) ks).results.getLast? = some 0 ∧
      (sinkFeed data ⟨[], (R : Int)⟩ (joinRep R data ++ extra) ks).stream = extra ∧
      (sinkFeed data ⟨[], (R : Int)⟩ (joinRep R data ++ extra) ks).state = ⟨[], 0⟩) := by
  have hd0 : 0 < data.length := List.length_pos.mpr hd
  have h := sinkFeed_full data hd0 R ks 0 0 extra hd0 hR
  have hlen : (alignedRem data R 0 0).length = R * data.length := by
    rw [alignedRem_zero data R hR, joinRep_length]
  rw [hlen] at h
  simpa [alignedRem_zero data R hR] using h

/-- Witness for C10: payload `[1,2]` once, one extra pipelined byte. -/
theorem c10_sink_read_bounds_witness :
    (∀ q ∈ (sinkFeed [1, 2] ⟨[], (1 : Int)⟩ (joinRep 1 [1, 2] ++ [9])
        [1, 1, 1]).caps, 1 ≤ q ∧ q ≤ 2) ∧
    (∃ t, (sinkFeed [1, 2] ⟨[], (1 : Int)⟩ (joinRep 1 [1, 2] ++ [9])
        [1, 1, 1]).stream = t ++ [9]) ∧
    (1 * 2 ≤ 3 →
      (sinkFeed [1, 2] ⟨[], (1 : Int)⟩ (joinRep 1 [1, 2] ++ [9])
          [1, 1, 1]).results.getLast? = some 0 ∧
      (sinkFeed [1, 2] ⟨[], (1 : Int)⟩ (joinRep 1 [1, 2] ++ [9])
          [1, 1, 1]).stream = [9] ∧
      (sinkFeed [1, 2] ⟨[], (1 : Int)⟩ (joinRep 1 [1, 2] ++ [9])
          [1, 1, 1]).state = ⟨[], 0⟩) :=
  c10_sink_read_bounds [1, 2] 1 [9] [1, 1, 1] (by decide) (by decide)

/-- C2 counterexample: a run that registers exactly one test (the tally
starts at `pending = 1`) but performs two terminal transitions for it —
the sink side fails on EOF and the stalled source fails in the same select
pass — driving `pending` to `-1`.  `pending` is therefore not the count of
tests in state pending, and the single registered test did not transition
exactly once: the identity `pending + succeeded + failed == total` survives
only as signed arithmetic. -/
theorem c2_counterexample :
    c2World.tally = ⟨1, 0, 0⟩ ∧
    (runP c2World c2Sched).tally.not_done = -1 ∧
    (runP c2World c2Sched).tally.successes = 0 ∧
    (runP c2World c2Sched).tally.failures = 2 ∧
    runReturn (runP c2World c2Sched).tally = false := by decide

end Chutney

namespace Chutney

theorem take_drop_append (S : Bytes) (b c nn : Nat) (hc : c ≤ b)
    (hb : b ≤ S.length) :
    (S.take (b + nn)).drop c = (S.take b).drop c ++ (S.drop b).take nn := by
  rw [List.take_add, List.drop_append_of_le_length]
  simp only [List.length_take]
  omega

theorem drop_of_take_decomp (S A B : Bytes) (b : Nat)
    (hEq : S = S.take b ++ (A ++ B)) (hb : b ≤ S.length) :
    S.drop b = A ++ B := by
  conv_lhs => rw [hEq]
  rw [List.drop_append_of_le_length (by simp only [List.length_take]; omega)]
  rw [List.drop_eq_nil_of_le (by simp only [List.length_take]; omega)]
  simp

theorem preWrite_spec (data : Bytes) (R : Nat) (hd : 0 < data.length)
    (hR : 0 < R) (b : Nat) (s : SourceState)
    (hS : SrcInv data R b (some s)) :
    (preWrite s).proxy = false ∧ (preWrite s).data = data ∧
    (preWrite s).sent_no_bytes = 0 ∧ (preWrite s).inbuf = [] ∧
    (preWrite s).state = ConnState.CONNECTED ∧
    b + (preWrite s).outbuf.length + (preWrite s).repetitions * data.length =
      R * data.length ∧
    0 < (preWrite s).outbuf.length ∧
    joinRep R data = (joinRep R data).take b ++ (preWrite s).outbuf ++
      joinRep (preWrite s).repetitions data ∧
    (preWrite s).repetitions * data.length + (preWrite s).outbuf.length =
      s.repetitions * data.length + s.outbuf.length := by
  obtain ⟨hprox, hdata, hsnb, hinb, hstate, hconn, hsum, hwork, hEq⟩ := hS
  rcases hstate with hcg | hcd
  · -- CONNECTING: becomes CONNECTED and queues the first copy
    obtain ⟨hob, hreps⟩ := hconn hcg
    have hb0 : b = 0 := by
      rw [hob, hreps] at hsum
      simp at hsum
      omega
    have hpre : preWrite s =
        { s with
            state := ConnState.CONNECTED
            outbuf := s.outbuf ++ s.data
            repetitions := s.repetitions - 1 } := by
      simp [preWrite, hcg, hprox, hob, hreps, hdata, hd, hR]
    rw [hpre]
    have hmul : R * data.length = data.length + (R - 1) * data.length := by
      have h3 : R = (R - 1) + 1 := by omega
      conv_lhs => rw [h3, Nat.succ_mul]
      omega
    refine ⟨hprox, hdata, hsnb, hinb, rfl, ?_, ?_, ?_, ?_⟩
    · simp only [hob, hreps, hdata, List.nil_append]
      omega
    · simp only [hob, hreps, hdata, List.nil_append]
      omega
    · simp only [hob, hreps, hdata, hb0, List.nil_append, List.take_zero]
      have h1 : R = (R - 1) + 1 := by omega
      conv_lhs => rw [h1, joinRep_succ]
    · simp only [hob, hreps, hdata, List.nil_append, List.length_nil]
      omega
  · -- CONNECTED: possibly queue another copy
    by_cases happ : s.outbuf.length < data.length ∧ 0 < s.repetitions
    · have hpre : preWrite s =
          { s with
              outbuf := s.outbuf ++ s.data
              repetitions := s.repetitions - 1 } := by
        simp [preWrite, hcd, hdata, happ.1, happ.2]
      rw [hpre]
      have hmul : s.repetitions * data.length =
          (s.repetitions - 1) * data.length + data.length := by
        have h1 : s.repetitions = (s.repetitions - 1) + 1 := by omega
        conv_lhs => rw [h1, Nat.succ_mul]
      refine ⟨hprox, hdata, hsnb, hinb, hcd, ?_, ?_, ?_, ?_⟩
      · simp only [hdata, List.length_append]
        omega
      · simp only [hdata, List.length_append]
        omega
      · conv_lhs => rw [hEq]
        have h1 : s.repetitions = (s.repetitions - 1) + 1 := by omega
        conv_lhs => rw [h1, joinRep_succ]
        simp [hdata, List.append_assoc]
      · simp only [hdata, List.length_append]
        omega
    · have hpre : preWrite s = s := by
        simp [preWrite, hcd]
        intro h1 h2
        rw [hdata] at h1
        exact absurd ⟨h1, h2⟩ happ
      rw [hpre]
      have hob : 0 < s.outbuf.length := by
        push_neg at happ
        rcases Nat.lt_or_ge s.outbuf.length data.length with hlt | hge
        · have hz : s.repetitions = 0 := by
            have h2 := happ hlt
            omega
          rw [hz] at hwork
          simpa using hwork
        · omega
      exact ⟨hprox, hdata, hsnb, hinb, hcd, hsum, hob, hEq, rfl⟩

theorem doSend_ok_pos (s : SourceState) (nn : Nat) (h1 : 0 < nn)
    (hstate : s.state = ConnState.CONNECTED) :
    doSend s (SendRes.ok nn) =
      ({ s with sent_no_bytes := 0, outbuf := s.outbuf.drop nn },
        s.outbuf.take nn,
        StepOut.ret ((s.repetitions : Int) * s.data.length +
          (s.outbuf.drop nn).length)) := by
  simp [doSend, h1, hstate]

end Chutney

namespace Chutney

theorem srcWriteStepA_inv (data : Bytes) (R : Nat) (hd : 0 < data.length)
    (hR : 0 < R) (n : Nat) (w : WorldA) (s : SourceState) (b : Nat)
    (hsrc : w.src = some s) (hS : SrcInv data R b (some s)) :
    ∃ nn, 1 ≤ nn ∧ b + nn ≤ R * data.length ∧
      (srcWriteStepA n w).sink = w.sink ∧
      (srcWriteStepA n w).accepted = w.accepted ∧
      (srcWriteStepA n w).tally = w.tally ∧
      (srcWriteStepA n w).timeout = w.timeout ∧
      (srcWriteStepA n w).connectReady = w.connectReady ∧
      (srcWriteStepA n w).ttData = w.ttData ∧
      (srcWriteStepA n w).ttReps = w.ttReps ∧
      (srcWriteStepA n w).wire = w.wire ++ ((joinRep R data).drop b).take nn ∧
      SrcInv data R (b + nn) (srcWriteStepA n w).src ∧
      measureA data R (srcWriteStepA n w) < measureA data R w := by
  obtain ⟨hprox, hdata, hsnb, hinb, hstate, hsum, hwork, hEq, hkeep⟩ :=
    preWrite_spec data R hd hR b s hS
  have hbR : b ≤ R * data.length := by omega
  have hpne : (preWrite s).outbuf.length ≠ 0 := by omega
  have hlenS : (joinRep R data).length = R * data.length := joinRep_length R data
  set p := preWrite s with hp
  set nn := min (max n 1) p.outbuf.length with hnn
  have hnn1 : 1 ≤ nn := le_min (by omega) (by omega)
  have hnnle : nn ≤ p.outbuf.length := min_le_right _ _
  have hdropb : (joinRep R data).drop b =
      p.outbuf ++ joinRep p.repetitions data := by
    apply drop_of_take_decomp _ _ _ b
    · rw [← List.append_assoc]
      exact hEq
    · omega
  have hchunk : p.outbuf.take nn = ((joinRep R data).drop b).take nn := by
    rw [hdropb, List.take_append_of_le_length hnnle]
  have hrv : ((p.repetitions : Int) * p.data.length +
      ((p.outbuf.drop nn).length : Int)) =
      ((p.repetitions * data.length + (p.outbuf.length - nn) : Nat) : Int) := by
    rw [hdata]
    simp only [List.length_drop]
    push_cast
    omega
  have hstepEq : srcWriteStepA n w =
      (let res := doSend p (SendRes.ok nn)
       let w2 := { w with wire := w.wire ++ res.2.1 }
       match res.2.2 with
       | StepOut.ret r =>
           if r = 0 then { w2 with src := none }
           else if r < 0 then { w2 with src := none, tally := w2.tally.failure }
           else { w2 with src := some res.1 }
       | StepOut.raiseErr _ => w2) := by
    simp only [srcWriteStepA, hsrc]
    rw [if_neg hpne]
  rw [doSend_ok_pos p nn (by omega) hstate] at hstepEq
  by_cases hz : p.repetitions * data.length + (p.outbuf.length - nn) = 0
  · -- the source finished: removed with result 0, no tally change
    have hval : ((p.repetitions : Int) * p.data.length +
        ((p.outbuf.drop nn).length : Int)) = 0 := by
      rw [hrv, hz]
      rfl
    have hfin : srcWriteStepA n w =
        { w with wire := w.wire ++ p.outbuf.take nn, src := none } := by
      rw [hstepEq]
      simp only [hval]
      rfl
    refine ⟨nn, hnn1, by omega, ?_⟩
    rw [hfin]
    refine ⟨rfl, rfl, rfl, rfl, rfl, rfl, rfl, by rw [hchunk], ?_, ?_⟩
    · show b + nn = R * data.length
      omega
    · simp only [measureA, hsrc]
      simp only [List.length_append, List.length_take]
      have hwk : s.repetitions * data.length + s.outbuf.length =
          p.repetitions * data.length + p.outbuf.length := hkeep.symm
      omega
  · -- the source still has work: kept with a positive result
    have hvalpos : (0 : Int) < ((p.repetitions : Int) * p.data.length +
        ((p.outbuf.drop nn).length : Int)) := by
      rw [hrv]
      omega
    have hfin : srcWriteStepA n w =
        { w with
            wire := w.wire ++ p.outbuf.take nn
            src := some { p with sent_no_bytes := 0, outbuf := p.outbuf.drop nn } } := by
      have hne : ¬((p.repetitions : Int) * p.data.length +
          ((p.outbuf.drop nn).length : Int) = 0) := by
        rw [hrv]
        omega
      have hnlt : ¬((p.repetitions : Int) * p.data.length +
          ((p.outbuf.drop nn).length : Int) < 0) := by
        rw [hrv]
        omega
      rw [hstepEq]
      simp only [if_neg hne, if_neg hnlt]
    refine ⟨nn, hnn1, by omega, ?_⟩
    rw [hfin]
    refine ⟨rfl, rfl, rfl, rfl, rfl, rfl, rfl, by rw [hchunk], ?_, ?_⟩
    · refine ⟨hprox, hdata, rfl, hinb, Or.inr hstate, ?_, ?_, ?_, ?_⟩
      · intro hcon
        rw [hstate] at hcon
        cases hcon
      · simp only [List.length_drop]
        omega
      · simp only [List.length_drop]
        omega
      · show joinRep R data =
          (joinRep R data).take (b + nn) ++ p.outbuf.drop nn ++
            joinRep p.repetitions data
        rw [List.take_add, ← hchunk, List.append_assoc, List.append_assoc,
          ← List.append_assoc (p.outbuf.take nn), List.take_append_drop,
          ← List.append_assoc]
        exact hEq
    · simp only [measureA, hsrc]
      simp only [List.length_append, List.length_take, List.length_drop]
      have hwk : s.repetitions * data.length + s.outbuf.length =
          p.repetitions * data.length + p.outbuf.length := hkeep.symm
      omega

end Chutney

namespace Chutney

theorem sinkReadStepA_eq_keep (ch : Nat) (w : WorldA) (sk : SinkState) (s2 : Nat)
    (hsink : w.sink = some sk)
    (hs : min (min (max ch 1) (recvRequest w.ttData sk)) w.wire.length = s2)
    (st2 : SinkState) (v : Int)
    (hv : Sink.verify w.ttData sk (w.wire.take s2) = (st2, v)) (hpos : 0 < v) :
    sinkReadStepA ch w = { w with sink := some st2, wire := w.wire.drop s2 } := by
  simp only [sinkReadStepA, hsink, hs, hv]
  rw [if_pos hpos]

theorem sinkReadStepA_eq_success (ch : Nat) (w : WorldA) (sk : SinkState) (s2 : Nat)
    (hsink : w.sink = some sk)
    (hs : min (min (max ch 1) (recvRequest w.ttData sk)) w.wire.length = s2)
    (st2 : SinkState)
    (hv : Sink.verify w.ttData sk (w.wire.take s2) = (st2, 0)) :
    sinkReadStepA ch w =
      { w with
          sink := none
          wire := w.wire.drop s2
          tally := w.tally.success } := by
  simp only [sinkReadStepA, hsink, hs, hv]
  norm_num

theorem sinkReadStepA_inv (data : Bytes) (R : Nat) (hd : 0 < data.length)
    (ch : Nat) (w : WorldA) (sk : SinkState) (b k r : Nat)
    (hsink : w.sink = some sk) (httD : w.ttData = data)
    (hskb : sk.inbuf = data.take r) (hskr : sk.repetitions = (R : Int) - k)
    (hk : k < R) (hr : r < data.length)
    (hwire : w.wire = ((joinRep R data).take b).drop (k * data.length + r))
    (hcb : k * data.length + r ≤ b) (hbR : b ≤ R * data.length)
    (hwne : w.wire ≠ []) :
    ∃ s2, 1 ≤ s2 ∧ k * data.length + r + s2 ≤ b ∧
      (sinkReadStepA ch w).src = w.src ∧
      (sinkReadStepA ch w).accepted = w.accepted ∧
      (sinkReadStepA ch w).timeout = w.timeout ∧
      (sinkReadStepA ch w).connectReady = w.connectReady ∧
      (sinkReadStepA ch w).ttData = w.ttData ∧
      (sinkReadStepA ch w).ttReps = w.ttReps ∧
      (sinkReadStepA ch w).wire =
        ((joinRep R data).take b).drop (k * data.length + r + s2) ∧
      ((∃ k2 r2, k2 * data.length + r2 = k * data.length + r + s2 ∧
          r2 < data.length ∧ k2 < R ∧
          (sinkReadStepA ch w).sink = some ⟨data.take r2, (R : Int) - k2⟩ ∧
          (sinkReadStepA ch w).tally = w.tally) ∨
       (k * data.length + r + s2 = R * data.length ∧ b = R * data.length ∧
          (sinkReadStepA ch w).sink = none ∧
          (sinkReadStepA ch w).tally = w.tally.success)) ∧
      measureA data R (sinkReadStepA ch w) < measureA data R w := by
  obtain ⟨ib, rep⟩ := sk
  have hib : ib = data.take r := hskb
  have hrep : rep = (R : Int) - k := hskr
  subst hib
  subst hrep
  have hlenS : (joinRep R data).length = R * data.length := joinRep_length R data
  have hwlen : w.wire.length = b - (k * data.length + r) := by
    rw [hwire]
    simp only [List.length_drop, List.length_take]
    omega
  have hbc : k * data.length + r < b := by
    have h0 : 0 < w.wire.length := List.length_pos.mpr hwne
    omega
  have hcap : recvRequest w.ttData ⟨data.take r, (R : Int) - k⟩ =
      data.length - r := by
    rw [recvRequest, httD]
    simp only [List.length_take]
    omega
  set s2 := min (min (max ch 1) (data.length - r)) w.wire.length with hs2def
  have hs1 : 1 ≤ s2 := by
    apply le_min (le_min (by omega) (by omega))
    omega
  have hsr : s2 ≤ data.length - r := le_trans (min_le_left _ _) (min_le_right _ _)
  have hsw : s2 ≤ w.wire.length := min_le_right _ _
  have hs : min (min (max ch 1)
      (recvRequest w.ttData ⟨data.take r, (R : Int) - k⟩)) w.wire.length = s2 := by
    rw [hcap]
  have hinp : w.wire.take s2 = (data.drop r).take s2 := by
    rw [hwire, List.drop_take]
    rw [List.take_take, min_eq_left (by omega)]
    rw [joinRep_drop_aligned R k r data hk (by omega)]
    exact List.take_append_of_le_length (by simp only [List.length_drop]; omega)
  have hstep := verify_aligned data R k r s2 hd hr hk hs1 (by omega)
  have hwiredrop : w.wire.drop s2 =
      ((joinRep R data).take b).drop (k * data.length + r + s2) := by
    rw [hwire, List.drop_drop]
    try (first | rfl | (congr 1; omega))
  have hsmall : (w.wire.drop s2).length < w.wire.length := by
    simp only [List.length_drop]
    omega
  by_cases hfull : r + s2 < data.length
  · -- still inside the current copy
    rw [if_pos hfull] at hstep
    have hvpos : (0 : Int) < ((R : Int) - k) * data.length - (r + s2) := by
      have hcast : ((R : Int) - k) * data.length =
          (((R - k) * data.length : Nat) : Int) := by
        have h1 : ((R : Int) - k) = ((R - k : Nat) : Int) := by omega
        rw [h1]
        push_cast
        ring
      rw [hcast]
      have hLle : data.length ≤ (R - k) * data.length :=
        Nat.le_mul_of_pos_left _ (by omega)
      omega
    have hv : Sink.verify w.ttData ⟨data.take r, (R : Int) - k⟩ (w.wire.take s2) =
        (⟨data.take (r + s2), (R : Int) - k⟩,
          ((R : Int) - k) * data.length - (r + s2)) := by
      rw [httD, hinp]
      exact hstep
    have hEQ := sinkReadStepA_eq_keep ch w ⟨data.take r, (R : Int) - k⟩ s2
      hsink hs _ _ hv hvpos
    refine ⟨s2, hs1, by omega, ?_⟩
    rw [hEQ]
    refine ⟨rfl, rfl, rfl, rfl, rfl, rfl, by rw [hwiredrop], ?_, ?_⟩
    · left
      exact ⟨k, r + s2, by omega, hfull, hk, rfl, rfl⟩
    · simp only [measureA]
      omega
  · -- completes the current copy
    have hrseq : r + s2 = data.length := by omega
    rw [if_neg hfull] at hstep
    by_cases hk2 : k + 1 < R
    · have hvpos : (0 : Int) < ((R : Int) - (k + 1)) * data.length := by
        have hcast : ((R : Int) - (k + 1)) * data.length =
            (((R - (k + 1)) * data.length : Nat) : Int) := by
          have h1 : ((R : Int) - (k + 1)) = ((R - (k + 1) : Nat) : Int) := by
            omega
          rw [h1]
          push_cast
          ring
        rw [hcast]
        have h2 : 0 < (R - (k + 1)) * data.length := Nat.mul_pos (by omega) hd
        omega
      have hv : Sink.verify w.ttData ⟨data.take r, (R : Int) - k⟩ (w.wire.take s2) =
          (⟨data.take 0, (R : Int) - (k + 1)⟩,
            ((R : Int) - (k + 1)) * data.length) := by
        rw [httD, hinp]
        exact hstep
      have hEQ := sinkReadStepA_eq_keep ch w ⟨data.take r, (R : Int) - k⟩ s2
        hsink hs _ _ hv hvpos
      refine ⟨s2, hs1, by omega, ?_⟩
      rw [hEQ]
      refine ⟨rfl, rfl, rfl, rfl, rfl, rfl, by rw [hwiredrop], ?_, ?_⟩
      · left
        refine ⟨k + 1, 0, ?_, hd, hk2, rfl, rfl⟩
        have hmul : (k + 1) * data.length = k * data.length + data.length :=
          Nat.succ_mul k data.length
        omega
      · simp only [measureA]
        omega
    · -- the whole stream is verified: success
      have hkR : k + 1 = R := by omega
      have hbRfull : b = R * data.length := by
        have hmul : R * data.length = k * data.length + data.length := by
          rw [← hkR]
          exact Nat.succ_mul k data.length
        omega
      have hzero : ((R : Int) - (k + 1)) = 0 := by omega
      have hv : Sink.verify w.ttData ⟨data.take r, (R : Int) - k⟩
          (w.wire.take s2) = (⟨[], 0⟩, 0) := by
        rw [httD, hinp, hstep, hzero]
        norm_num
      have hEQ := sinkReadStepA_eq_success ch w ⟨data.take r, (R : Int) - k⟩ s2
        hsink hs _ hv
      refine ⟨s2, hs1, by omega, ?_⟩
      rw [hEQ]
      refine ⟨rfl, rfl, rfl, rfl, rfl, rfl, by rw [hwiredrop], ?_, ?_⟩
      · right
        refine ⟨?_, hbRfull, rfl, rfl⟩
        have hmul : R * data.length = k * data.length + data.length := by
          rw [← hkR]
          exact Nat.succ_mul k data.length
        omega
      · simp only [measureA]
        omega

end Chutney

namespace Chutney

theorem want_of_SrcInv (data : Bytes) (R : Nat) (b : Nat) (s : SourceState)
    (hd : 0 < data.length) (hS : SrcInv data R b (some s)) :
    want_to_write s = true := by
  obtain ⟨hprox, hdata, hsnb, hinb, hstate, hconn, hsum, hwork, hEq⟩ := hS
  unfold want_to_write
  rcases hstate with hcg | hcd
  · rw [if_pos hcg]
  · rw [if_neg (by rw [hcd]; intro h; cases h)]
    by_cases hob : 0 < s.outbuf.length
    · rw [if_pos hob]
    · rw [if_neg hob]
      have hrep : 0 < s.repetitions := by
        rcases Nat.eq_zero_or_pos s.repetitions with h0 | hpos
        · rw [h0] at hwork
          simp at hwork
          omega
        · exact hpos
      rw [if_pos ⟨hcd, hrep, by rw [hdata]; omega⟩]

theorem roundA_eq_accept (ch : Nat × Nat) (w : WorldA)
    (hcr : w.connectReady = true) (hacc : w.accepted = false)
    (hwant : (match w.src with
      | some s => want_to_write s
      | none => false) = true) :
    roundA ch w = srcWriteStepA ch.2
      { w with accepted := true, sink := some ⟨[], w.ttReps⟩ } := by
  simp [roundA, hcr, hacc, hwant]

theorem roundA_eq_sink_src (ch : Nat × Nat) (w : WorldA)
    (hcr : w.connectReady = true) (hacc : w.accepted = true)
    (hsk : w.sink.isSome = true) (hwne : w.wire.isEmpty = false)
    (hwant : (match (sinkReadStepA ch.1 w).src with
      | some s => want_to_write s
      | none => false) = true) :
    roundA ch w = srcWriteStepA ch.2 (sinkReadStepA ch.1 w) := by
  simp [roundA, hcr, hacc, hsk, hwne, hwant]

theorem roundA_eq_sink_only (ch : Nat × Nat) (w : WorldA)
    (hcr : w.connectReady = true) (hacc : w.accepted = true)
    (hsk : w.sink.isSome = true) (hwne : w.wire.isEmpty = false)
    (hwant : (match (sinkReadStepA ch.1 w).src with
      | some s => want_to_write s
      | none => false) = false) :
    roundA ch w = sinkReadStepA ch.1 w := by
  simp [roundA, hcr, hacc, hsk, hwne, hwant]

theorem roundA_eq_src_only (ch : Nat × Nat) (w : WorldA)
    (hcr : w.connectReady = true) (hacc : w.accepted = true)
    (hwe : w.wire.isEmpty = true)
    (hwant : (match w.src with
      | some s => want_to_write s
      | none => false) = true) :
    roundA ch w = srcWriteStepA ch.2 w := by
  simp [roundA, hcr, hacc, hwe, hwant]

end Chutney

namespace Chutney

theorem src_some_of_lt (data : Bytes) (R b : Nat) (o : Option SourceState)
    (hS : SrcInv data R b o) (hlt : b < R * data.length) :
    ∃ s, o = some s := by
  cases o with
  | none =>
      exfalso
      have hb : b = R * data.length := hS
      omega
  | some s => exact ⟨s, rfl⟩

theorem src_none_of_full (data : Bytes) (R : Nat) (o : Option SourceState)
    (hS : SrcInv data R (R * data.length) o) : o = none := by
  cases o with
  | none => rfl
  | some s =>
      exfalso
      obtain ⟨_, _, _, _, _, _, hsum, hwork, _⟩ := hS
      omega

theorem roundA_inv (data : Bytes) (R : Nat) (T : Int) (hd : 0 < data.length)
    (hR : 0 < R) (ch : Nat × Nat) (w : WorldA)
    (hI : InvA data R T w) (hnd : ¬ w.tally.all_done = true) :
    InvA data R T (roundA ch w) ∧
    measureA data R (roundA ch w) < measureA data R w := by
  obtain ⟨hcr, httD, httR, htime, b, k, r, hrL, hcb, hbR, hwire, hsrcI, haccF,
    haccT⟩ := hI
  have hlenS : (joinRep R data).length = R * data.length := joinRep_length R data
  have hRL : 0 < R * data.length := Nat.mul_pos hR hd
  cases hacc : w.accepted with
  | false =>
      -- first round: accept the connection, then the source writes
      obtain ⟨hskN, hb0, hk0, hr0, htly⟩ := haccF hacc
      subst hb0
      subst hk0
      subst hr0
      have hwe : w.wire = [] := by
        rw [hwire]
        simp
      obtain ⟨s, hsome⟩ := src_some_of_lt data R 0 w.src hsrcI hRL
      have hwant : (match w.src with
          | some s => want_to_write s
          | none => false) = true := by
        rw [hsome]
        exact want_of_SrcInv data R 0 s hd (hsome ▸ hsrcI)
      have hEQ := roundA_eq_accept ch w hcr hacc hwant
      have hw1src :
          ({ w with accepted := true, sink := some ⟨[], w.ttReps⟩ } : WorldA).src =
          some s := hsome
      obtain ⟨nn, hnn1, hbnn, hsk2, hacc2, htly2, htm2, hcr2, httD2, httR2,
        hwire2, hsrc2, hmeas2⟩ :=
        srcWriteStepA_inv data R hd hR ch.2
          { w with accepted := true, sink := some ⟨[], w.ttReps⟩ } s 0
          hw1src (hw1src ▸ (hsome ▸ hsrcI))
      rw [hEQ]
      constructor
      · refine ⟨by rw [hcr2]; exact hcr, by rw [httD2]; exact httD,
          by rw [httR2]; exact httR, by rw [htm2]; exact htime, nn, 0, 0, hrL, by omega, by omega, ?_, ?_, ?_, ?_⟩
        · rw [hwire2]
          show ({ w with accepted := true, sink := some ⟨[], w.ttReps⟩ } :
              WorldA).wire ++ _ = _
          rw [show ({ w with accepted := true, sink := some ⟨[], w.ttReps⟩ } :
              WorldA).wire = w.wire from rfl, hwe]
          simp only [Nat.zero_mul, Nat.zero_add, Nat.add_zero, List.nil_append,
            List.drop_zero]
        · have h0 : (0 : Nat) + nn = nn := by omega
          rw [h0] at hsrc2
          exact hsrc2
        · intro hcon
          rw [hacc2] at hcon
          cases hcon
        · intro _
          left
          refine ⟨⟨[], (R : Int)⟩, ?_, by simp, by simp, hR, ?_⟩
          · rw [hsk2]
            show some (⟨[], w.ttReps⟩ : SinkState) = _
            rw [httR]
          · rw [htly2, htly]
      · calc measureA data R (srcWriteStepA ch.2
            { w with accepted := true, sink := some ⟨[], w.ttReps⟩ }) <
            measureA data R
              { w with accepted := true, sink := some ⟨[], w.ttReps⟩ } := hmeas2
          _ < measureA data R w := by
            simp only [measureA, hacc, Bool.false_eq_true, if_false, if_true]
            omega
  | true =>
      rcases haccT hacc with ⟨sk, hskS, hskb, hskr, hk, htly⟩ |
        ⟨hskN, hkR, hr0, htly⟩
      · -- the sink is still verifying
        by_cases hwe : w.wire = []
        · -- nothing to read: the source must still be writing
          have hbc2 : b = k * data.length + r := by
            have h0 : w.wire.length = 0 := by rw [hwe]; rfl
            rw [hwire] at h0
            simp only [List.length_drop, List.length_take] at h0
            omega
          have hblt : b < R * data.length := by
            have hkle : k * data.length ≤ (R - 1) * data.length :=
              Nat.mul_le_mul_right _ (by omega)
            have hmul : (R - 1) * data.length + data.length = R * data.length := by
              have h2 : R = (R - 1) + 1 := by omega
              conv_rhs => rw [h2, Nat.succ_mul]
            omega
          obtain ⟨s, hsome⟩ := src_some_of_lt data R b w.src hsrcI hblt
          have hwant : (match w.src with
              | some s => want_to_write s
              | none => false) = true := by
            rw [hsome]
            exact want_of_SrcInv data R b s hd (hsome ▸ hsrcI)
          have hEQ := roundA_eq_src_only ch w hcr hacc
            (by rw [hwe]; rfl) hwant
          obtain ⟨nn, hnn1, hbnn, hsk2, hacc2, htly2, htm2, hcr2, httD2, httR2,
            hwire2, hsrc2, hmeas2⟩ :=
            srcWriteStepA_inv data R hd hR ch.2 w s b hsome (hsome ▸ hsrcI)
          rw [hEQ]
          refine ⟨⟨by rw [hcr2]; exact hcr, by rw [httD2]; exact httD,
            by rw [httR2]; exact httR, by rw [htm2]; exact htime, b + nn, k, r, hrL, by omega, hbnn, ?_, hsrc2,
            ?_, ?_⟩, hmeas2⟩
          · rw [hwire2, hwire,
              take_drop_append (joinRep R data) b (k * data.length + r) nn hcb
                (by omega)]
          · intro hcon
            rw [hacc2, hacc] at hcon
            cases hcon
          · intro _
            left
            refine ⟨sk, ?_, hskb, hskr, hk, ?_⟩
            · rw [hsk2]
              exact hskS
            · rw [htly2, htly]
        · -- read from the wire first
          have hskSome : w.sink.isSome = true := by rw [hskS]; rfl
          have hwneB : w.wire.isEmpty = false := by
            cases hwc : w.wire with
            | nil => exact absurd hwc hwe
            | cons x xs => rfl
          obtain ⟨s2, hs21, hs2b, hsrcEq, haccEq, htmEq, hcrEq, httDEq, httREq,
            hwireEq, hbranch, hmeasS⟩ :=
            sinkReadStepA_inv data R hd ch.1 w sk b k r hskS httD hskb hskr hk
              hrL hwire hcb hbR hwe
          rcases hbranch with ⟨k2, r2, hc2, hr2, hk2, hsk2S, htly2⟩ |
            ⟨hc2RL, hbRL, hsk2N, htly2⟩
          · -- the sink consumed a chunk and is still verifying
            cases hsrcO : w.src with
            | some s =>
                have hwant : (match (sinkReadStepA ch.1 w).src with
                    | some s => want_to_write s
                    | none => false) = true := by
                  rw [hsrcEq, hsrcO]
                  exact want_of_SrcInv data R b s hd (hsrcO ▸ hsrcI)
                have hEQ := roundA_eq_sink_src ch w hcr hacc hskSome hwneB hwant
                obtain ⟨nn, hnn1, hbnn, hsk3, hacc3, htly3, htm3, hcr3, httD3,
                  httR3, hwire3, hsrc3, hmeas3⟩ :=
                  srcWriteStepA_inv data R hd hR ch.2 (sinkReadStepA ch.1 w) s b
                    (by rw [hsrcEq, hsrcO]) (hsrcO ▸ hsrcI)
                rw [hEQ]
                constructor
                · refine ⟨by rw [hcr3, hcrEq]; exact hcr, by rw [httD3, httDEq]; exact httD,
                    by rw [httR3, httREq]; exact httR, by rw [htm3, htmEq]; exact htime,
                    b + nn, k2, r2, hr2, by omega, by omega, ?_, hsrc3, ?_, ?_⟩
                  · rw [hwire3, hwireEq, hc2,
                      take_drop_append (joinRep R data) b
                        (k * data.length + r + s2) nn (by omega) (by omega)]
                  · intro hcon
                    rw [hacc3, haccEq, hacc] at hcon
                    cases hcon
                  · intro _
                    left
                    refine ⟨⟨data.take r2, (R : Int) - k2⟩, ?_, rfl, rfl, hk2, ?_⟩
                    · rw [hsk3]
                      exact hsk2S
                    · rw [htly3, htly2, htly]
                · exact lt_trans hmeas3 hmeasS
            | none =>
                have hwant : (match (sinkReadStepA ch.1 w).src with
                    | some s => want_to_write s
                    | none => false) = false := by
                  rw [hsrcEq, hsrcO]
                have hEQ := roundA_eq_sink_only ch w hcr hacc hskSome hwneB hwant
                rw [hEQ]
                constructor
                · refine ⟨by rw [hcrEq, hcr], by rw [httDEq, httD],
                    by rw [httREq, httR], by rw [htmEq, htime],
                    b, k2, r2, hr2, by omega, hbR, ?_, ?_, ?_, ?_⟩
                  · rw [hwireEq, hc2]
                  · rw [hsrcEq, hsrcO]
                    exact hsrcO ▸ hsrcI
                  · intro hcon
                    rw [haccEq, hacc] at hcon
                    cases hcon
                  · intro _
                    left
                    exact ⟨⟨data.take r2, (R : Int) - k2⟩, hsk2S, rfl, rfl, hk2,
                      by rw [htly2, htly]⟩
                · exact hmeasS
          · -- the sink finished: success is credited, the test is done
            have hsrcN : w.src = none := by
              apply src_none_of_full data R w.src
              rw [← hbRL]
              exact hsrcI
            have hwant : (match (sinkReadStepA ch.1 w).src with
                | some s => want_to_write s
                | none => false) = false := by
              rw [hsrcEq, hsrcN]
            have hEQ := roundA_eq_sink_only ch w hcr hacc hskSome hwneB hwant
            rw [hEQ]
            constructor
            · refine ⟨by rw [hcrEq, hcr], by rw [httDEq, httD],
                by rw [httREq, httR], by rw [htmEq, htime],
                b, R, 0, hd, ?_, hbR, ?_, ?_, ?_, ?_⟩
              · omega
              · rw [hwireEq]
                have hidx : k * data.length + r + s2 =
                    R * data.length + 0 := by omega
                rw [hidx]
              · rw [hsrcEq, hsrcN]
                show b = R * data.length
                omega
              · intro hcon
                rw [haccEq, hacc] at hcon
                cases hcon
              · intro _
                right
                refine ⟨hsk2N, rfl, rfl, ?_⟩
                rw [htly2, htly]
                rfl
            · exact hmeasS
      · -- the sink already succeeded: the loop guard would have stopped
        exfalso
        apply hnd
        rw [htly]
        rfl

theorem Source.init_direct (data : Bytes) (R : Nat) (hd : data.length ≠ 0)
    (hR : R ≠ 0) :
    Source.init [] 0 data false R =
    { state := ConnState.CONNECTING, data := data, outbuf := [], inbuf := [],
      proxy := false, destHost := [], destPort := 0,
      repetitions := R, sent_no_bytes := 0 } := by
  simp [Source.init, Source.preConnect, Source.connect, hd, hR]

theorem initWorldA_inv (data : Bytes) (R : Nat) (T : Int)
    (hd : 0 < data.length) (hR : 0 < R) :
    InvA data R T (initWorldA data R T true) := by
  have hL : data.length ≠ 0 := by omega
  have hRne : R ≠ 0 := by omega
  refine ⟨rfl, ?_, ?_, rfl, 0, 0, 0, hd, by omega, by omega, ?_, ?_, ?_, ?_⟩
  · show (ttSanitize data R).1 = data
    simp [ttSanitize, hL, hRne]
  · show ((ttSanitize data R).2 : Int) = (R : Int)
    simp [ttSanitize, hL, hRne]
  · simp [initWorldA]
  · show SrcInv data R 0 (some (Source.init [] 0 data false R))
    rw [Source.init_direct data R hL hRne]
    refine ⟨rfl, rfl, rfl, rfl, Or.inl rfl, fun _ => ⟨rfl, rfl⟩, by simp,
      ?_, by simp⟩
    simp only [List.length_nil, Nat.zero_add]
    exact Nat.mul_pos hR hd
  · intro _
    exact ⟨rfl, rfl, rfl, rfl, rfl⟩
  · intro hcon
    simp [initWorldA] at hcon

theorem tally_of_invA_done (data : Bytes) (R : Nat) (T : Int) (w : WorldA)
    (hI : InvA data R T w) (hdone : w.tally.all_done = true) :
    w.tally = ⟨0, 1, 0⟩ := by
  obtain ⟨_, _, _, _, b, k, r, _, _, _, _, _, haccF, haccT⟩ := hI
  cases hacc : w.accepted with
  | false =>
      obtain ⟨_, _, _, _, htly⟩ := haccF hacc
      rw [htly] at hdone
      exact absurd hdone (by decide)
  | true =>
      rcases haccT hacc with ⟨sk, _, _, _, _, htly⟩ | ⟨_, _, _, htly⟩
      · rw [htly] at hdone
        exact absurd hdone (by decide)
      · exact htly

theorem invA_failures (data : Bytes) (R : Nat) (T : Int) (w : WorldA)
    (hI : InvA data R T w) : w.tally.failures = 0 := by
  obtain ⟨_, _, _, _, b, k, r, _, _, _, _, _, haccF, haccT⟩ := hI
  cases hacc : w.accepted with
  | false =>
      obtain ⟨_, _, _, _, htly⟩ := haccF hacc
      rw [htly]
  | true =>
      rcases haccT hacc with ⟨sk, _, _, _, _, htly⟩ | ⟨_, _, _, htly⟩ <;>
        rw [htly]

theorem runA_invA (data : Bytes) (R : Nat) (T : Int) (hd : 0 < data.length)
    (hR : 0 < R) (chs : Nat → Nat × Nat) (fuel : Nat) (w : WorldA)
    (hI : InvA data R T w) : InvA data R T (runA fuel chs w) := by
  induction fuel generalizing w with
  | zero => exact hI
  | succ f ih =>
      rw [runA]
      by_cases hg : w.tally.all_done = true ∨ w.timeout ≤ 0
      · rw [if_pos hg]
        exact hI
      · rw [if_neg hg]
        push_neg at hg
        exact ih _ (roundA_inv data R T hd hR (chs f) w hI hg.1).1

theorem runA_completes (data : Bytes) (R : Nat) (T : Int)
    (hd : 0 < data.length) (hR : 0 < R) (hT : 0 < T) (chs : Nat → Nat × Nat)
    (fuel : Nat) (w : WorldA) (hI : InvA data R T w)
    (hfuel : measureA data R w < fuel) :
    (runA fuel chs w).tally = ⟨0, 1, 0⟩ := by
  induction fuel generalizing w with
  | zero => omega
  | succ f ih =>
      rw [runA]
      by_cases hdone : w.tally.all_done = true
      · rw [if_pos (Or.inl hdone)]
        exact tally_of_invA_done data R T w hI hdone
      · have hT0 : ¬ w.timeout ≤ 0 := by
          obtain ⟨_, _, _, htime, _⟩ := hI
          rw [htime]
          omega
        rw [if_neg (by push_neg; exact ⟨hdone, by omega⟩)]
        obtain ⟨hI2, hm⟩ := roundA_inv data R T hd hR (chs f) w hI hdone
        exact ih _ hI2 (by omega)

/-- C1: only the nondegenerate half of the claim holds.  For a non-empty
payload `data` repeated `R ≥ 1` times over a direct (no-proxy) loopback
connection, under every per-round choice of `send` acceptance and `recv`
chunking the run never books a failure, and with enough loop iterations it
ends with the one registered test succeeded and `run()` returning true.
(The degenerate half of the claim is refuted by `c1_counterexample`.) -/
theorem c1_direct_delivery (data : Bytes) (R : Nat) (T : Int)
    (chs : Nat → Nat × Nat) (fuel : Nat) (hd : 0 < data.length) (hR : 0 < R)
    (hT : 0 < T) :
    (runA fuel chs (initWorldA data R T true)).tally.failures = 0 ∧
    (measureA data R (initWorldA data R T true) < fuel →
      (runA fuel chs (initWorldA data R T true)).tally = ⟨0, 1, 0⟩ ∧
      runReturn (runA fuel chs (initWorldA data R T true)).tally = true) := by
  have hI := initWorldA_inv data R T hd hR
  constructor
  · exact invA_failures data R T _ (runA_invA data R T hd hR chs fuel _ hI)
  · intro hfuel
    have hfin := runA_completes data R T hd hR hT chs fuel _ hI hfuel
    exact ⟨hfin, by rw [hfin]; rfl⟩

theorem c1_direct_delivery_witness :
    (runA 10 (fun _ => (3, 3)) (initWorldA [1, 2] 1 1 true)).tally.failures
      = 0 ∧
    (runA 10 (fun _ => (3, 3)) (initWorldA [1, 2] 1 1 true)).tally
      = ⟨0, 1, 0⟩ ∧
    runReturn (runA 10 (fun _ => (3, 3)) (initWorldA [1, 2] 1 1 true)).tally
      = true := by
  have h := c1_direct_delivery [1, 2] 1 1 (fun _ => (3, 3)) 10 (by decide)
    (by decide) (by decide)
  exact ⟨h.1, h.2 (by decide)⟩

/-- C1, degenerate half refuted: with payload `[7]` and `R = 0` (so the
sanitized spec is empty) the Source's write step returns 0, which the
reactor handles by dropping the peer *without* crediting a success
(lines 407-409 only call `failure()` on a negative result and never
`success()`), so the test stays pending forever: the run times out with
the tally still `⟨1, 0, 0⟩`, the sink unresolved, and `run()` false —
the degenerate test does not resolve succeeded. -/
theorem c1_counterexample :
    (runA 8 (fun _ => (1, 1)) (initWorldA [7] 0 3 true)).tally
      = ⟨1, 0, 0⟩ ∧
    (runA 8 (fun _ => (1, 1)) (initWorldA [7] 0 3 true)).tally.successes
      = 0 ∧
    runReturn (runA 8 (fun _ => (1, 1)) (initWorldA [7] 0 3 true)).tally
      = false := by
  decide


theorem InvP_fields (host : List Char) (port : Nat) (reply : Bytes)
    (w w' : WorldP) (hr : w'.reply = w.reply) (hc : w'.cmd = w.cmd)
    (hrr : w'.replyRead = w.replyRead) (hd : w'.delivered = w.delivered)
    (ht : w'.transit = w.transit) (hs : w'.sent = w.sent)
    (ho : w'.srcOutcome = w.srcOutcome) (hsr : w'.src = w.src)
    (hI : InvP host port reply w) : InvP host port reply w' := by
  obtain ⟨h1, h2, h3, h4, h5, h6, h7, h8⟩ := hI
  refine ⟨by rw [hr, h1], by rw [hc, h2], by rw [hrr, hd]; exact h3,
    by rw [hd]; exact h4, by rw [ht, h5], ?_, by rw [ho]; exact h7, ?_⟩
  · obtain ⟨t, h6t⟩ := h6
    exact ⟨t, by rw [hs, hc, h6t]⟩
  · intro s hss
    rw [hsr] at hss
    obtain ⟨p1, p2, p3, p4, p5⟩ := h8 s hss
    refine ⟨by rw [ho]; exact p1, p2, p3, p4, ?_⟩
    rcases p5 with ⟨q1, q2, q3, q4, q5⟩ | ⟨q1, q2, q3, q4⟩
    · exact Or.inl ⟨q1, q2, q3, by rw [hrr]; exact q4, by rw [hs]; exact q5⟩
    · exact Or.inr ⟨q1, by rw [hrr]; exact q2, q3, by rw [hs, hc]; exact q4⟩

theorem queue_chunk (l : Bytes) (rr d m : Nat) (hrd : rr ≤ d)
    (hdl : d ≤ l.length) :
    l.take rr ++ ((l.take d).drop rr).take m =
    l.take (rr + (((l.take d).drop rr).take m).length) := by
  have h1 : ((l.take d).drop rr).take m = (l.drop rr).take (min m (d - rr)) := by
    rw [List.drop_take, List.take_take]
  have h2 : (((l.take d).drop rr).take m).length = min m (d - rr) := by
    rw [h1, List.length_take, List.length_drop]
    omega
  rw [h2, h1, List.take_add]

theorem stepRead_invP (host : List Char) (port : Nat) (reply : Bytes)
    (hbad : reply.take 2 ≠ [0x00, 0x5a] ∨ reply.length < 8)
    (w : WorldP) (e : REv) (hI : InvP host port reply w) :
    InvP host port reply (stepRead w e) := by
  obtain ⟨hrep, hcmd, hrd, hdl, htr, hsent, hout, hsrc⟩ := hI
  have hIw : InvP host port reply w :=
    ⟨hrep, hcmd, hrd, hdl, htr, hsent, hout, hsrc⟩
  cases e with
  | accept =>
      simp only [stepRead]
      by_cases ha : w.accepted = true
      · rw [if_pos ha]
        exact hIw
      · rw [if_neg ha]
        exact InvP_fields host port reply w _ rfl rfl rfl rfl rfl rfl rfl rfl hIw
  | sinkRead k =>
      cases hsk : w.sink with
      | none =>
          simp only [stepRead, hsk]
          exact hIw
      | some sk =>
          simp only [stepRead, hsk]
          by_cases hc : (w.transit.isEmpty && !w.exitClosed) = true
          · rw [if_pos hc]
            exact hIw
          · rw [if_neg hc]
            have hdr : ∀ n, w.transit.drop n = w.transit := by
              intro n
              rw [htr]
              simp
            by_cases h1 : 0 < (Sink.verify w.ttData sk
                (w.transit.take (min (max k 1) (recvRequest w.ttData sk)))).2
            · rw [if_pos h1]
              exact InvP_fields host port reply w _ rfl rfl rfl rfl (hdr _) rfl
                rfl rfl hIw
            · rw [if_neg h1]
              by_cases h2 : (Sink.verify w.ttData sk
                  (w.transit.take (min (max k 1) (recvRequest w.ttData sk)))).2 = 0
              · rw [if_pos h2]
                exact InvP_fields host port reply w _ rfl rfl rfl rfl (hdr _) rfl
                  rfl rfl hIw
              · rw [if_neg h2]
                exact InvP_fields host port reply w _ rfl rfl rfl rfl (hdr _) rfl
                  rfl rfl hIw
  | srcRead k =>
      cases hs : w.src with
      | none =>
          simp only [stepRead, hs]
          exact hIw
      | some s =>
          simp only [stepRead, hs]
          have hsp := hsrc s hs
          obtain ⟨houtc, hproxy, hdh, hdp, hstate⟩ := hsp
          by_cases hq : (w.queue.isEmpty && !w.replyClosed) = true
          · rw [if_pos hq]
            exact hIw
          · rw [if_neg hq]
            rcases hstate with ⟨hstC, hob, hib, hrr0, hsent0⟩ |
              ⟨hstT, hib, hibl8, hsoc⟩
            · -- still CONNECTING: a readable event is a no-op keep
              have hne : ¬ s.state = ConnState.CONNECTING_THROUGH_PROXY := by
                rw [hstC]
                decide
              rw [if_neg hne]
              have hw : want_to_write s = true := by
                unfold want_to_write
                rw [if_pos hstC]
              have hor : onReadable s [] = (s, 1) := by
                unfold onReadable
                rw [if_neg hne, hw]
                simp
              have hcond : (0 : Int) < (onReadable s []).2 := by
                rw [hor]
                norm_num
              rw [if_pos hcond]
              exact InvP_fields host port reply w _ rfl rfl rfl rfl rfl rfl rfl
                (by rw [hs, hor]) hIw
            · -- CONNECTING_THROUGH_PROXY: read part of the reply
              rw [if_pos hstT]
              set ch2 := w.queue.take (min (max k 1) (8 - s.inbuf.length))
                with hch
              have hql2 : w.queue.length = w.delivered - w.replyRead := by
                simp only [WorldP.queue, List.length_drop, List.length_take,
                  hrep]
                omega
              have hcl : ch2.length =
                  min (min (max k 1) (8 - s.inbuf.length)) w.queue.length := by
                rw [hch, List.length_take]
              have hc1 : ch2.length ≤ w.delivered - w.replyRead := by
                rw [hcl, hql2]
                omega
              have hc2 : ch2.length ≤ 8 - s.inbuf.length := by
                rw [hcl]
                omega
              have hibl : s.inbuf.length = w.replyRead := by
                rw [hib, List.length_take]
                omega
              have hchunk_eq : s.inbuf ++ ch2 =
                  reply.take (w.replyRead + ch2.length) := by
                rw [hch, hib]
                simp only [WorldP.queue, hrep]
                exact queue_chunk reply w.replyRead w.delivered _ hrd hdl
              by_cases hch0 : ch2.length = 0
              · -- EOF read: the source fails
                have hch0' : ch2 = [] := List.length_eq_zero.mp hch0
                have hor : onReadable s ch2 = (s, -1) := by
                  unfold onReadable
                  rw [if_pos hstT, if_pos hch0]
                have hcond1 : ¬ (0 : Int) < (onReadable s ch2).2 := by
                  rw [hor]
                  norm_num
                have hcond2 : ¬ (onReadable s ch2).2 = 0 := by
                  rw [hor]
                  norm_num
                rw [if_neg hcond1, if_neg hcond2]
                refine ⟨hrep, hcmd,
                  (show w.replyRead + ch2.length ≤ w.delivered by omega),
                  hdl, htr, hsent, Or.inr rfl, ?_⟩
                intro s' hss
                exact Option.noConfusion hss
              · -- some reply bytes arrive and extend the handshake buffer
                have hle8 : w.replyRead + ch2.length ≤ 8 := by omega
                by_cases heq8 : (s.inbuf ++ ch2).length = 8
                · -- complete 8-byte reply assembled: status must be checked
                  have hrr8 : w.replyRead + ch2.length = 8 := by
                    rw [List.length_append, hibl] at heq8
                    omega
                  have hlen8 : 8 ≤ reply.length := by
                    have hlen := congrArg List.length hchunk_eq
                    rw [List.length_take] at hlen
                    omega
                  rcases hbad with hbad1 | hbad2
                  · have htk : (s.inbuf ++ ch2).take 2 = reply.take 2 := by
                      rw [hchunk_eq, List.take_take]
                      congr 1
                      omega
                    have hstat : ¬ (s.inbuf ++ ch2).take 2 =
                        [0x00, 0x5a] := by
                      rw [htk]
                      exact hbad1
                    have hor : onReadable s ch2 =
                        ({ { s with inbuf := s.inbuf ++ ch2 } with
                            state := ConnState.NOT_CONNECTED }, -1) := by
                      unfold onReadable
                      rw [if_pos hstT, if_neg hch0, if_pos heq8,
                        if_neg hstat]
                    have hcond1 : ¬ (0 : Int) < (onReadable s ch2).2 := by
                      rw [hor]
                      norm_num
                    have hcond2 : ¬ (onReadable s ch2).2 = 0 := by
                      rw [hor]
                      norm_num
                    rw [if_neg hcond1, if_neg hcond2]
                    refine ⟨hrep, hcmd,
                      (show w.replyRead + ch2.length ≤ w.delivered by omega),
                      hdl, htr, hsent, Or.inr rfl, ?_⟩
                    intro s' hss
                    exact Option.noConfusion hss
                  · exact absurd hlen8 (by omega)
                · -- fewer than 8 bytes so far: keep waiting
                  have hlt8 : (s.inbuf ++ ch2).length < 8 := by
                    rw [List.length_append, hibl] at heq8 ⊢
                    omega
                  have hor : onReadable s ch2 =
                      ({ s with inbuf := s.inbuf ++ ch2 },
                        (8 : Int) - (s.inbuf ++ ch2).length) := by
                    unfold onReadable
                    rw [if_pos hstT, if_neg hch0, if_neg heq8]
                  have hcond : (0 : Int) < (onReadable s ch2).2 := by
                    rw [hor]
                    show (0 : Int) < 8 - ((s.inbuf ++ ch2).length : Int)
                    omega
                  rw [if_pos hcond]
                  refine ⟨hrep, hcmd,
                    (show w.replyRead + ch2.length ≤ w.delivered by omega),
                    hdl, htr, hsent, hout, ?_⟩
                  intro s' hss
                  rw [hor] at hss
                  have hs' : s' = { s with inbuf := s.inbuf ++ ch2 } :=
                    (Option.some_injective _ hss.symm)
                  subst hs'
                  refine ⟨houtc, hproxy, hdh, hdp, Or.inr ⟨hstT, ?_, hlt8, hsoc⟩⟩
                  show s.inbuf ++ ch2 = reply.take (w.replyRead + ch2.length)
                  exact hchunk_eq

theorem stepWrite_invP (host : List Char) (port : Nat) (reply : Bytes)
    (w : WorldP) (e : WEv) (hI : InvP host port reply w) :
    InvP host port reply (stepWrite w e) := by
  obtain ⟨hrep, hcmd, hrd, hdl, htr, hsent, hout, hsrc⟩ := hI
  have hIw : InvP host port reply w :=
    ⟨hrep, hcmd, hrd, hdl, htr, hsent, hout, hsrc⟩
  cases e with
  | srcWrite n =>
      cases hs : w.src with
      | none =>
          simp only [stepWrite, hs]
          exact hIw
      | some s =>
          simp only [stepWrite, hs]
          have hsp := hsrc s hs
          obtain ⟨houtc, hproxy, hdh, hdp, hstate⟩ := hsp
          have hmain : ∃ p, preWrite s = p ∧
              p.state = ConnState.CONNECTING_THROUGH_PROXY ∧
              p.inbuf = reply.take w.replyRead ∧ p.inbuf.length < 8 ∧
              w.sent ++ p.outbuf = w.cmd ∧ p.proxy = true ∧
              p.destHost = host ∧ p.destPort = port := by
            rcases hstate with ⟨hstC, hob, hib, hrr0, hsent0⟩ |
              ⟨hstT, hib, hibl8, hsoc⟩
            · have hpre : preWrite s =
                  { s with
                    state := ConnState.CONNECTING_THROUGH_PROXY
                    outbuf := socks_cmd s.destHost s.destPort } := by
                simp [preWrite, hstC, hproxy]
              refine ⟨_, hpre, rfl, ?_, ?_, ?_, hproxy, hdh, hdp⟩
              · show s.inbuf = reply.take w.replyRead
                rw [hib, hrr0]
                simp
              · show s.inbuf.length < 8
                rw [hib]
                decide
              · show w.sent ++ socks_cmd s.destHost s.destPort = w.cmd
                rw [hsent0, hdh, hdp, hcmd]
                simp
            · have hpre : preWrite s = s := by
                simp [preWrite, hstT]
              exact ⟨s, hpre, hstT, hib, hibl8, hsoc, hproxy, hdh, hdp⟩
          obtain ⟨p, hpre, hpst, hpib, hpibl, hpsoc, hpprx, hpdh, hpdp⟩ := hmain
          rw [hpre]
          have hnc : ¬ p.state = ConnState.CONNECTED := by
            rw [hpst]
            decide
          by_cases hnn : 0 < min n p.outbuf.length
          · have hds : doSend p (SendRes.ok (min n p.outbuf.length)) =
                ({ { p with sent_no_bytes := 0 } with
                    outbuf := p.outbuf.drop (min n p.outbuf.length) },
                  p.outbuf.take (min n p.outbuf.length), StepOut.ret 1) := by
              simp [doSend, hnn, hpst]
            rw [hds]
            dsimp only
            rw [if_neg hnc]
            have h10 : ¬ (1 : Int) = 0 := by norm_num
            have h11 : ¬ (1 : Int) < 0 := by norm_num
            rw [if_neg h10, if_neg h11]
            refine ⟨hrep, hcmd, hrd, hdl, htr, ?_, hout, ?_⟩
            · refine ⟨p.outbuf.drop (min n p.outbuf.length), ?_⟩
              show w.sent ++ p.outbuf.take (min n p.outbuf.length) ++
                p.outbuf.drop (min n p.outbuf.length) = w.cmd
              rw [List.append_assoc, List.take_append_drop]
              exact hpsoc
            · intro s' hss
              have hs' : s' = { { p with sent_no_bytes := 0 } with
                  outbuf := p.outbuf.drop (min n p.outbuf.length) } :=
                Option.some_injective _ hss.symm
              subst hs'
              refine ⟨houtc, hpprx, hpdh, hpdp,
                Or.inr ⟨hpst, hpib, hpibl, ?_⟩⟩
              show w.sent ++ p.outbuf.take (min n p.outbuf.length) ++
                p.outbuf.drop (min n p.outbuf.length) = w.cmd
              rw [List.append_assoc, List.take_append_drop]
              exact hpsoc
          · by_cases hsnb : 2 ≤ p.sent_no_bytes + 1
            · have hds : doSend p (SendRes.ok (min n p.outbuf.length)) =
                  ({ p with sent_no_bytes := p.sent_no_bytes + 1 }, [],
                    StepOut.ret (-1)) := by
                simp [doSend, hnn, hsnb]
              rw [hds]
              dsimp only
              rw [if_neg hnc]
              have h10 : ¬ (-1 : Int) = 0 := by norm_num
              have h11 : (-1 : Int) < 0 := by norm_num
              rw [if_neg h10, if_pos h11]
              refine ⟨hrep, hcmd, hrd, hdl, htr, ?_, Or.inr rfl, ?_⟩
              · refine ⟨p.outbuf, ?_⟩
                show w.sent ++ [] ++ p.outbuf = w.cmd
                rw [List.append_nil]
                exact hpsoc
              · intro s' hss
                exact Option.noConfusion hss
            · have hds : doSend p (SendRes.ok (min n p.outbuf.length)) =
                  ({ p with sent_no_bytes := p.sent_no_bytes + 1 }, [],
                    StepOut.ret 1) := by
                simp [doSend, hnn, hsnb, hpst]
              rw [hds]
              dsimp only
              rw [if_neg hnc]
              have h10 : ¬ (1 : Int) = 0 := by norm_num
              have h11 : ¬ (1 : Int) < 0 := by norm_num
              rw [if_neg h10, if_neg h11]
              refine ⟨hrep, hcmd, hrd, hdl, htr, ?_, hout, ?_⟩
              · refine ⟨p.outbuf, ?_⟩
                show w.sent ++ [] ++ p.outbuf = w.cmd
                rw [List.append_nil]
                exact hpsoc
              · intro s' hss
                have hs' : s' = { p with
                    sent_no_bytes := p.sent_no_bytes + 1 } :=
                  Option.some_injective _ hss.symm
                subst hs'
                refine ⟨houtc, hpprx, hpdh, hpdp,
                  Or.inr ⟨hpst, hpib, hpibl, ?_⟩⟩
                show w.sent ++ [] ++ p.outbuf = w.cmd
                rw [List.append_nil]
                exact hpsoc

theorem foldl_stepRead_invP (host : List Char) (port : Nat) (reply : Bytes)
    (hbad : reply.take 2 ≠ [0x00, 0x5a] ∨ reply.length < 8) :
    ∀ (rs : List REv) (w : WorldP), InvP host port reply w →
      InvP host port reply (rs.foldl stepRead w) := by
  intro rs
  induction rs with
  | nil => exact fun w h => h
  | cons e rest ih =>
      intro w h
      exact ih (stepRead w e) (stepRead_invP host port reply hbad w e h)

theorem foldl_stepWrite_invP (host : List Char) (port : Nat) (reply : Bytes) :
    ∀ (ws : List WEv) (w : WorldP), InvP host port reply w →
      InvP host port reply (ws.foldl stepWrite w) := by
  intro ws
  induction ws with
  | nil => exact fun w h => h
  | cons e rest ih =>
      intro w h
      exact ih (stepWrite w e) (stepWrite_invP host port reply w e h)

theorem stepPass_invP (host : List Char) (port : Nat) (reply : Bytes)
    (hbad : reply.take 2 ≠ [0x00, 0x5a] ∨ reply.length < 8)
    (w : WorldP) (rs : List REv) (ws : List WEv)
    (hI : InvP host port reply w) : InvP host port reply (stepPass w rs ws) := by
  simp only [stepPass]
  by_cases hwt : (match w.src with
      | some s => want_to_write s
      | none => false) = true
  · rw [if_pos hwt]
    exact foldl_stepWrite_invP host port reply ws _
      (foldl_stepRead_invP host port reply hbad rs w hI)
  · rw [if_neg hwt]
    exact foldl_stepRead_invP host port reply hbad rs w hI

theorem stepItem_invP (host : List Char) (port : Nat) (reply : Bytes)
    (hbad : reply.take 2 ≠ [0x00, 0x5a] ∨ reply.length < 8)
    (w : WorldP) (it : PItem) (hI : InvP host port reply w) :
    InvP host port reply (stepItem w it) := by
  obtain ⟨hrep, hcmd, hrd, hdl, htr, hsent, hout, hsrc⟩ := hI
  have hIw : InvP host port reply w :=
    ⟨hrep, hcmd, hrd, hdl, htr, hsent, hout, hsrc⟩
  cases it with
  | deliver k =>
      simp only [stepItem]
      by_cases hg : w.cmd.length ≤ w.sent.length
      · rw [if_pos hg]
        refine ⟨hrep, hcmd, ?_, ?_, htr, hsent, hout, fun s' hss => hsrc s' hss⟩
        · show w.replyRead ≤ min (w.delivered + k) w.reply.length
          rw [hrep]
          omega
        · show min (w.delivered + k) w.reply.length ≤ reply.length
          rw [hrep]
          omega
      · rw [if_neg hg]
        exact hIw
  | closeReply =>
      exact InvP_fields host port reply w _ rfl rfl rfl rfl rfl rfl rfl rfl hIw
  | closeExit =>
      exact InvP_fields host port reply w _ rfl rfl rfl rfl rfl rfl rfl rfl hIw
  | pass rs ws =>
      simp only [stepItem]
      by_cases hg : w.tally.all_done = true ∨ w.timeout ≤ 0
      · rw [if_pos hg]
        exact hIw
      · rw [if_neg hg]
        exact stepPass_invP host port reply hbad w rs ws hIw
  | tick =>
      simp only [stepItem]
      by_cases hg : w.tally.all_done = true ∨ w.timeout ≤ 0
      · rw [if_pos hg]
        exact hIw
      · rw [if_neg hg]
        exact InvP_fields host port reply w _ rfl rfl rfl rfl rfl rfl rfl rfl hIw

theorem runP_invP (host : List Char) (port : Nat) (reply : Bytes)
    (hbad : reply.take 2 ≠ [0x00, 0x5a] ∨ reply.length < 8) :
    ∀ (items : List PItem) (w : WorldP), InvP host port reply w →
      InvP host port reply (runP w items) := by
  intro items
  induction items with
  | nil => exact fun w h => h
  | cons it rest ih =>
      intro w h
      exact ih (stepItem w it) (stepItem_invP host port reply hbad w it h)

theorem initWorldP_invP (host : List Char) (port : Nat) (data : Bytes)
    (reps : Nat) (timeout : Int) (reply : Bytes) :
    InvP host port reply (initWorldP host port data reps timeout reply) := by
  refine ⟨rfl, rfl, Nat.le_refl 0, Nat.zero_le _, rfl,
    ⟨socks_cmd host port, rfl⟩, Or.inl rfl, ?_⟩
  intro s' hss
  have hs' : s' = Source.init host port data true reps :=
    Option.some_injective _ hss.symm
  subst hs'
  exact ⟨rfl, rfl, rfl, rfl, Or.inl ⟨rfl, rfl, rfl, rfl, rfl⟩⟩

/-- C3: a proxied Source whose SOCKS4 reply is bad — wrong status bytes or
shorter than the fixed 8 bytes before EOF — can only fail, and no payload
byte is ever written: under every schedule its outcome is never success,
nothing is ever relayed past the proxy, and everything it wrote is a
prefix of the SOCKS command; on concrete schedules the rejected reply
`00 5B …` and a 3-byte reply followed by EOF both resolve the test
failed with the command fully sent and zero payload bytes. -/
theorem c3_proxy_rejection :
    (∀ (host : List Char) (port : Nat) (data : Bytes) (reps : Nat)
      (timeout : Int) (reply : Bytes) (items : List PItem),
      (reply.take 2 ≠ [0x00, 0x5a] ∨ reply.length < 8) →
      (runP (initWorldP host port data reps timeout reply) items).srcOutcome
          ≠ some 0 ∧
      (runP (initWorldP host port data reps timeout reply) items).transit
          = [] ∧
      ∃ t, (runP (initWorldP host port data reps timeout reply) items).sent
          ++ t = socks_cmd host port) ∧
    ((runP (initWorldP cHost 5000 [1, 2, 3, 4] 1 3
        [0x00, 0x5b, 0, 0, 0, 0, 0, 0])
        [.pass [] [.srcWrite 20], .deliver 8, .pass [.srcRead 8] []]).srcOutcome
        = some (-1) ∧
      (runP (initWorldP cHost 5000 [1, 2, 3, 4] 1 3
        [0x00, 0x5b, 0, 0, 0, 0, 0, 0])
        [.pass [] [.srcWrite 20], .deliver 8, .pass [.srcRead 8] []]).tally
        = ⟨0, 0, 1⟩ ∧
      (runP (initWorldP cHost 5000 [1, 2, 3, 4] 1 3
        [0x00, 0x5b, 0, 0, 0, 0, 0, 0])
        [.pass [] [.srcWrite 20], .deliver 8, .pass [.srcRead 8] []]).sent
        = socks_cmd cHost 5000) ∧
    ((runP (initWorldP cHost 5000 [1, 2, 3, 4] 1 3 [0x00, 0x5a, 0x00])
        [.pass [] [.srcWrite 20], .deliver 8, .pass [.srcRead 8] [],
         .closeReply, .pass [.srcRead 8] []]).srcOutcome = some (-1) ∧
      (runP (initWorldP cHost 5000 [1, 2, 3, 4] 1 3 [0x00, 0x5a, 0x00])
        [.pass [] [.srcWrite 20], .deliver 8, .pass [.srcRead 8] [],
         .closeReply, .pass [.srcRead 8] []]).tally = ⟨0, 0, 1⟩) := by
  refine ⟨?_, by decide, by decide⟩
  intro host port data reps timeout reply items hbad
  have hI := runP_invP host port reply hbad items _
    (initWorldP_invP host port data reps timeout reply)
  obtain ⟨hrep, hcmd, hrd, hdl, htr, hsent, hout, hsrc⟩ := hI
  refine ⟨?_, htr, by rw [← hcmd]; exact hsent⟩
  rcases hout with h | h <;> rw [h] <;> intro hcon
  · exact Option.noConfusion hcon
  · exact absurd (Option.some_injective _ hcon) (by norm_num)

theorem c3_proxy_rejection_witness :
    (([0x00, 0x5b, 0, 0, 0, 0, 0, 0] : Bytes).take 2 ≠ [0x00, 0x5a] ∨
      ([0x00, 0x5b, 0, 0, 0, 0, 0, 0] : Bytes).length < 8) ∧
    (runP (initWorldP cHost 5000 [1, 2, 3, 4] 1 3
        [0x00, 0x5b, 0, 0, 0, 0, 0, 0]) [.deliver 3]).srcOutcome ≠ some 0 ∧
    (runP (initWorldP cHost 5000 [1, 2, 3, 4] 1 3
        [0x00, 0x5b, 0, 0, 0, 0, 0, 0]) [.deliver 3]).transit = [] ∧
    ∃ t, (runP (initWorldP cHost 5000 [1, 2, 3, 4] 1 3
        [0x00, 0x5b, 0, 0, 0, 0, 0, 0]) [.deliver 3]).sent ++ t =
      socks_cmd cHost 5000 :=
  ⟨by decide, c3_proxy_rejection.1 cHost 5000 [1, 2, 3, 4] 1 3
    [0x00, 0x5b, 0, 0, 0, 0, 0, 0] [.deliver 3] (by decide)⟩

theorem doSend_state (p : SourceState) (sr : SendRes) :
    (doSend p sr).1.state = p.state := by
  cases sr with
  | err e =>
      unfold doSend
      dsimp only
      by_cases he : e = ECONNREFUSED
      · rw [if_pos he]
      · rw [if_neg he]
  | ok n =>
      unfold doSend
      dsimp only
      by_cases hn : 0 < n
      · rw [if_pos hn]
        split
        · rfl
        · rfl
      · rw [if_neg hn]
        split
        · rfl
        · split
          · rfl
          · rfl

theorem preWrite_state (st : SourceState) :
    (preWrite st).state =
      if st.state = ConnState.CONNECTING then
        (if st.proxy = false then ConnState.CONNECTED
         else ConnState.CONNECTING_THROUGH_PROXY)
      else st.state := by
  unfold preWrite
  dsimp only
  by_cases h1 : st.state = ConnState.CONNECTING
  · rw [if_pos h1, if_pos h1]
    by_cases h2 : st.proxy = false
    · rw [if_pos h2, if_pos h2]
      split
      · rfl
      · rfl
    · rw [if_neg h2, if_neg h2]
      split
      · rfl
      · rfl
  · rw [if_neg h1, if_neg h1]
    split
    · rfl
    · rfl

theorem onReadable_rank (st : SourceState) (inp : Bytes) :
    ConnState.rank st.state ≤ ConnState.rank (onReadable st inp).1.state ∨
    (st.state = ConnState.CONNECTING_THROUGH_PROXY ∧
      (onReadable st inp).1.state = ConnState.NOT_CONNECTED ∧
      (onReadable st inp).2 = -1) := by
  unfold onReadable
  dsimp only
  by_cases hst : st.state = ConnState.CONNECTING_THROUGH_PROXY
  · rw [if_pos hst]
    by_cases h0 : inp.length = 0
    · rw [if_pos h0]
      left
      exact Nat.le_refl _
    · rw [if_neg h0]
      by_cases h8 : (st.inbuf ++ inp).length = 8
      · rw [if_pos h8]
        by_cases hgood : (st.inbuf ++ inp).take 2 = [0x00, 0x5a]
        · rw [if_pos hgood]
          left
          rw [hst]
          split
          · show ConnState.rank ConnState.CONNECTING_THROUGH_PROXY ≤
              ConnState.rank ConnState.CONNECTED
            decide
          · show ConnState.rank ConnState.CONNECTING_THROUGH_PROXY ≤
              ConnState.rank ConnState.CONNECTED
            decide
        · rw [if_neg hgood]
          right
          exact ⟨hst, rfl, rfl⟩
      · rw [if_neg h8]
        left
        exact Nat.le_refl _
  · rw [if_neg hst]
    left
    exact Nat.le_refl _

theorem stepRead_out (w : WorldP) (e : REv) (x : Int)
    (ho : w.srcOutcome = some x) (hn : w.src = none) :
    (stepRead w e).srcOutcome = some x ∧ (stepRead w e).src = none := by
  cases e with
  | accept =>
      simp only [stepRead]
      by_cases ha : w.accepted = true
      · rw [if_pos ha]
        exact ⟨ho, hn⟩
      · rw [if_neg ha]
        exact ⟨ho, hn⟩
  | srcRead k =>
      simp only [stepRead, hn]
      exact ⟨ho, trivial⟩
  | sinkRead k =>
      cases hsk : w.sink with
      | none =>
          simp only [stepRead, hsk]
          exact ⟨ho, hn⟩
      | some sk =>
          simp only [stepRead, hsk]
          by_cases hc : (w.transit.isEmpty && !w.exitClosed) = true
          · rw [if_pos hc]
            exact ⟨ho, hn⟩
          · rw [if_neg hc]
            by_cases h1 : 0 < (Sink.verify w.ttData sk
                (w.transit.take (min (max k 1) (recvRequest w.ttData sk)))).2
            · rw [if_pos h1]
              exact ⟨ho, hn⟩
            · rw [if_neg h1]
              by_cases h2 : (Sink.verify w.ttData sk
                  (w.transit.take
                    (min (max k 1) (recvRequest w.ttData sk)))).2 = 0
              · rw [if_pos h2]
                exact ⟨ho, hn⟩
              · rw [if_neg h2]
                exact ⟨ho, hn⟩

theorem stepWrite_out (w : WorldP) (e : WEv) (x : Int)
    (ho : w.srcOutcome = some x) (hn : w.src = none) :
    (stepWrite w e).srcOutcome = some x ∧ (stepWrite w e).src = none := by
  cases e with
  | srcWrite n =>
      simp only [stepWrite, hn]
      exact ⟨ho, trivial⟩

theorem foldl_stepRead_out (x : Int) :
    ∀ (rs : List REv) (w : WorldP), w.srcOutcome = some x → w.src = none →
      (rs.foldl stepRead w).srcOutcome = some x ∧
      (rs.foldl stepRead w).src = none := by
  intro rs
  induction rs with
  | nil => exact fun w ho hn => ⟨ho, hn⟩
  | cons e rest ih =>
      intro w ho hn
      obtain ⟨ho2, hn2⟩ := stepRead_out w e x ho hn
      exact ih (stepRead w e) ho2 hn2

theorem foldl_stepWrite_out (x : Int) :
    ∀ (ws : List WEv) (w : WorldP), w.srcOutcome = some x → w.src = none →
      (ws.foldl stepWrite w).srcOutcome = some x ∧
      (ws.foldl stepWrite w).src = none := by
  intro ws
  induction ws with
  | nil => exact fun w ho hn => ⟨ho, hn⟩
  | cons e rest ih =>
      intro w ho hn
      obtain ⟨ho2, hn2⟩ := stepWrite_out w e x ho hn
      exact ih (stepWrite w e) ho2 hn2

theorem stepItem_out (w : WorldP) (it : PItem) (x : Int)
    (ho : w.srcOutcome = some x) (hn : w.src = none) :
    (stepItem w it).srcOutcome = some x ∧ (stepItem w it).src = none := by
  cases it with
  | deliver k =>
      simp only [stepItem]
      by_cases hg : w.cmd.length ≤ w.sent.length
      · rw [if_pos hg]
        exact ⟨ho, hn⟩
      · rw [if_neg hg]
        exact ⟨ho, hn⟩
  | closeReply => exact ⟨ho, hn⟩
  | closeExit => exact ⟨ho, hn⟩
  | pass rs ws =>
      simp only [stepItem]
      by_cases hg : w.tally.all_done = true ∨ w.timeout ≤ 0
      · rw [if_pos hg]
        exact ⟨ho, hn⟩
      · rw [if_neg hg]
        simp only [stepPass]
        by_cases hwt : (match w.src with
            | some s => want_to_write s
            | none => false) = true
        · rw [if_pos hwt]
          obtain ⟨ho2, hn2⟩ := foldl_stepRead_out x rs w ho hn
          exact foldl_stepWrite_out x ws _ ho2 hn2
        · rw [if_neg hwt]
          exact foldl_stepRead_out x rs w ho hn
  | tick =>
      simp only [stepItem]
      by_cases hg : w.tally.all_done = true ∨ w.timeout ≤ 0
      · rw [if_pos hg]
        exact ⟨ho, hn⟩
      · rw [if_neg hg]
        exact ⟨ho, hn⟩

theorem runP_out (x : Int) :
    ∀ (items : List PItem) (w : WorldP), w.srcOutcome = some x →
      w.src = none →
      (runP w items).srcOutcome = some x ∧ (runP w items).src = none := by
  intro items
  induction items with
  | nil => exact fun w ho hn => ⟨ho, hn⟩
  | cons it rest ih =>
      intro w ho hn
      obtain ⟨ho2, hn2⟩ := stepItem_out w it x ho hn
      exact ih (stepItem w it) ho2 hn2

/-- C8: the amended state machine.  A write step never decreases the
state's numeric rank (`NOT_CONNECTED`, `CONNECTING`,
`CONNECTING_THROUGH_PROXY`, `CONNECTED` are 0, 1, 2, 5); a read step also
never decreases it except along the single proxy-rejection edge, which
jumps back to `NOT_CONNECTED` while reporting the terminal failure `-1`
(so `NOT_CONNECTED` *is* revisited — see `c8_counterexample`); and once a
source's test has reached a terminal outcome it keeps that one outcome
through every further schedule. -/
theorem c8_forward_progress :
    (∀ (st : SourceState) (sr : SendRes),
      ConnState.rank st.state ≤ ConnState.rank (onWritable st sr).1.state) ∧
    (∀ (st : SourceState) (inp : Bytes),
      ConnState.rank st.state ≤ ConnState.rank (onReadable st inp).1.state ∨
      (st.state = ConnState.CONNECTING_THROUGH_PROXY ∧
        (onReadable st inp).1.state = ConnState.NOT_CONNECTED ∧
        (onReadable st inp).2 = -1)) ∧
    (∀ (x : Int) (items : List PItem) (w : WorldP),
      w.srcOutcome = some x → w.src = none →
      (runP w items).srcOutcome = some x ∧ (runP w items).src = none) := by
  refine ⟨?_, onReadable_rank, runP_out⟩
  intro st sr
  show ConnState.rank st.state ≤
    ConnState.rank (doSend (preWrite st) sr).1.state
  rw [doSend_state, preWrite_state]
  by_cases hc : st.state = ConnState.CONNECTING
  · rw [if_pos hc, hc]
    by_cases hp : st.proxy = false
    · rw [if_pos hp]
      decide
    · rw [if_neg hp]
      decide
  · rw [if_neg hc]

theorem c8_forward_progress_witness :
    (runP (runP (initWorldP cHost 5000 [1, 2, 3, 4] 1 3
        [0x00, 0x5b, 0, 0, 0, 0, 0, 0])
        [.pass [] [.srcWrite 20], .deliver 8, .pass [.srcRead 8] []])
      [.tick, .pass [.srcRead 1, .accept] [.srcWrite 1]]).srcOutcome
      = some (-1) :=
  (c8_forward_progress.2.2 (-1)
    [.tick, .pass [.srcRead 1, .accept] [.srcWrite 1]] _
    (by decide) (by decide)).1

/-- C8, refuted as stated: the proxy-rejection path revisits
`NOT_CONNECTED`.  A proxied source goes `NOT_CONNECTED`, `CONNECTING`,
`CONNECTING_THROUGH_PROXY`, and on the rejected 8-byte reply
`00 5B 00 00 00 00 00 00` line 249 sets the state back to
`NOT_CONNECTED` (with terminal result -1), so that state occurs twice in
the connection's lifetime. -/
theorem c8_counterexample :
    [(Source.preConnect cHost 5000 [1] true 1).state,
     (Source.connect (Source.preConnect cHost 5000 [1] true 1)).state,
     (onWritable (Source.connect (Source.preConnect cHost 5000 [1] true 1))
        (SendRes.ok 9)).1.state,
     (onReadable (onWritable (Source.connect
        (Source.preConnect cHost 5000 [1] true 1)) (SendRes.ok 9)).1
        [0x00, 0x5b, 0, 0, 0, 0, 0, 0]).1.state].count
      ConnState.NOT_CONNECTED = 2 ∧
    (onReadable (onWritable (Source.connect
        (Source.preConnect cHost 5000 [1] true 1)) (SendRes.ok 9)).1
        [0x00, 0x5b, 0, 0, 0, 0, 0, 0]).2 = -1 := by
  decide

end Chutney
